import Mathlib

/-!
Verification of the `verifiers` orchestration core.

File contents are modelled as `List Char` (the Rust code manipulates UTF-8
`String`s line by line; none of the operations in `file_manager.rs` split
surrogate pairs or inspect raw bytes, so a character-sequence model is
faithful).  The checkbox file store (`src/file_manager.rs`), the CLI invoker
(`src/runner.rs::run_claude`) and the orchestration loop
(`src/runner.rs::run_loop`) are embedded as pure functions; the external CLI
and the filesystem are oracles supplied as inputs.
-/

namespace Verifiers

/-- Prefix test: `leadsWith t l` is true iff `t` is a prefix of `l` (used to model
`Regex::is_match` for the anchored literal patterns of the source). -/
def leadsWith : List Char → List Char → Bool
  | [], _ => true
  | _ :: _, [] => false
  | a :: as, b :: bs => a == b && leadsWith as bs

/-- Substring test: `hasSeq t s` is true iff `t` occurs contiguously in `s`. -/
def hasSeq (t : List Char) : List Char → Bool
  | [] => leadsWith t []
  | c :: s => leadsWith t (c :: s) || hasSeq t s

/-- Model of Rust `str::split('\n')` restricted to the newline separator:
the (always nonempty) list of segments of `s` between `'\n'` characters. -/
def splitNl : List Char → List (List Char)
  | [] => [[]]
  | c :: rest =>
    if c = '\n' then [] :: splitNl rest
    else
      match splitNl rest with
      | [] => [[c]]
      | l :: ls => (c :: l) :: ls

/-- Strip a single trailing `'\r'`, as Rust's `str::lines` does to each
line that was terminated by `'\n'` (model of `strip_suffix('\r')`). -/
def stripCR : List Char → List Char
  | [] => []
  | [c] => if c = '\r' then [] else [c]
  | c :: c' :: rest => c :: stripCR (c' :: rest)

/-- Post-processing of the `splitNl` segments that yields exactly the lines
produced by Rust `str::lines`: every segment that was terminated by `'\n'`
(i.e. every segment but the last) has one trailing `'\r'` stripped; a final
empty segment (arising from a trailing newline, or from an empty string) is
dropped; a final nonempty segment is kept verbatim. -/
def linesParts : List (List Char) → List (List Char)
  | [] => []
  | [p] => if p = [] then [] else [p]
  | p :: ps => stripCR p :: linesParts ps

/-- Model of Rust `contents.lines()` as used by `FileManager`. -/
def rustLines (s : List Char) : List (List Char) :=
  linesParts (splitNl s)

/-- Model of `Vec::join("\n")`. -/
def joinNl : List (List Char) → List Char
  | [] => []
  | [l] => l
  | l :: ls => l ++ '\n' :: joinNl ls

/-- Model of `contents.ends_with('\n')`. -/
def endsNl : List Char → Bool
  | [] => false
  | [c] => c == '\n'
  | _ :: c :: rest => endsNl (c :: rest)

/-- Trailing-CR test: `endsCR l` is true iff `l` ends with a carriage return. -/
def endsCR : List Char → Bool
  | [] => false
  | [c] => c == '\r'
  | _ :: c :: rest => endsCR (c :: rest)

/-- The literal pattern `[x] ` of the regexes `^\[x\] ` and (first
alternative of) `^\[(x| |)\] (.+)$` in `file_manager.rs`. -/
def checkedPat : List Char := ['[', 'x', ']', ' ']

/-- Model of one step of `FileManager::uncheck_all`'s line map
(`file_manager.rs` lines 55-61): a line matching `^\[x\] ` is rewritten to
`"[] "` followed by everything after the first four characters; any other
line is kept unchanged. -/
def uncheckLine (l : List Char) : List Char :=
  if leadsWith checkedPat l then '[' :: ']' :: ' ' :: l.drop 4 else l

/-- Model of `FileManager::uncheck_all` (`file_manager.rs` lines 50-71) as a
function on file contents: map `uncheckLine` over `lines()`, join with
`"\n"`, and restore a trailing newline iff the original contents had one. -/
def uncheck_all (s : List Char) : List Char :=
  let out := joinNl ((rustLines s).map uncheckLine)
  if endsNl s then out ++ ['\n'] else out

/-- Model of the per-line match of `FileManager::parse_checkboxes` against
`^\[(x| |)\] (.+)$` (`file_manager.rs` lines 37-44): group 1 is `x`, a
single space, or empty (distinguished by the second character), group 2 is
the nonempty remainder of the line; `checked` iff group 1 is `x`. -/
def matchCheckbox : List Char → Option (List Char × Bool)
  | '[' :: 'x' :: ']' :: ' ' :: rest => if rest = [] then none else some (rest, true)
  | '[' :: ' ' :: ']' :: ' ' :: rest => if rest = [] then none else some (rest, false)
  | '[' :: ']' :: ' ' :: rest => if rest = [] then none else some (rest, false)
  | _ => none

/-- Model of `FileManager::parse_checkboxes` (`file_manager.rs` lines
35-47): matching lines, in file order; non-matching lines are skipped. -/
def parse_checkboxes (s : List Char) : List (List Char × Bool) :=
  (rustLines s).filterMap matchCheckbox

/-- Model of the contents written by `FileManager::create`
(`file_manager.rs` lines 13-27): one `[] name` line per verifier name, a
blank line, then the prompt and a final newline. -/
def create_contents (names : List String) (prompt : String) : List Char :=
  (names.map (fun n => '[' :: ']' :: ' ' :: (n.data ++ ['\n']))).flatten
    ++ '\n' :: (prompt.data ++ ['\n'])

/-! ### Basic lemmas about the line machinery -/

theorem leadsWith_iff (t : List Char) : ∀ l, leadsWith t l = true ↔ ∃ r, l = t ++ r := by
  induction t with
  | nil => intro l; simp [leadsWith]
  | cons a as ih =>
    intro l
    cases l with
    | nil =>
      simp [leadsWith]
    | cons b bs =>
      simp only [leadsWith, Bool.and_eq_true, beq_iff_eq, ih, List.cons_append,
        List.cons.injEq]
      constructor
      · rintro ⟨h1, r, h2⟩; exact ⟨r, h1.symm, h2⟩
      · rintro ⟨r, h1, h2⟩; exact ⟨h1.symm, r, h2⟩

theorem leadsWith_append {t a : List Char} (h : leadsWith t a = true) (w : List Char) :
    leadsWith t (a ++ w) = true := by
  rcases (leadsWith_iff t a).1 h with ⟨r, rfl⟩
  exact (leadsWith_iff t _).2 ⟨r ++ w, by simp⟩

theorem hasSeq_of_decomp (t a b : List Char) : hasSeq t (a ++ t ++ b) = true := by
  induction a with
  | nil =>
    cases t with
    | nil =>
      cases b with
      | nil => simp [hasSeq, leadsWith]
      | cons c s => simp [hasSeq, leadsWith]
    | cons x xs =>
      have : leadsWith (x :: xs) ((x :: xs) ++ b) = true :=
        (leadsWith_iff _ _).2 ⟨b, rfl⟩
      simpa [hasSeq] using Or.inl this
  | cons c a ih =>
    simpa [hasSeq] using Or.inr ih

theorem hasSeq_append_left (t b : List Char) (h : hasSeq t b = true) (a : List Char) :
    hasSeq t (a ++ b) = true := by
  induction a with
  | nil => simpa using h
  | cons c a ih =>
    simpa [hasSeq] using Or.inr ih

/-! ### splitNl -/

theorem splitNl_ne_nil (s : List Char) : splitNl s ≠ [] := by
  cases s with
  | nil => simp [splitNl]
  | cons c rest =>
    simp only [splitNl]
    split
    · simp
    · split <;> simp

theorem splitNl_append (l rest : List Char) (hl : '\n' ∉ l) :
    splitNl (l ++ '\n' :: rest) = l :: splitNl rest := by
  induction l with
  | nil => simp [splitNl]
  | cons c cs ih =>
    rw [List.mem_cons, not_or] at hl
    rw [List.cons_append]
    simp only [splitNl, if_neg (fun h : c = '\n' => hl.1 h.symm)]
    rw [ih hl.2]

theorem splitNl_no_nl (s : List Char) (h : '\n' ∉ s) : splitNl s = [s] := by
  induction s with
  | nil => simp [splitNl]
  | cons c cs ih =>
    rw [List.mem_cons, not_or] at h
    simp only [splitNl, if_neg (fun hc : c = '\n' => h.1 hc.symm)]
    rw [ih h.2]

theorem joinNl_cons (x : List Char) (ys : List (List Char)) (h : ys ≠ []) :
    joinNl (x :: ys) = x ++ '\n' :: joinNl ys := by
  cases ys with
  | nil => exact absurd rfl h
  | cons y ys' => rfl

theorem joinNl_splitNl (s : List Char) : joinNl (splitNl s) = s := by
  induction s with
  | nil => rfl
  | cons c rest ih =>
    by_cases hc : c = '\n'
    · subst hc
      have hs : splitNl ('\n' :: rest) = [] :: splitNl rest := by simp [splitNl]
      rw [hs, joinNl_cons _ _ (splitNl_ne_nil rest), ih]
      rfl
    · simp only [splitNl, if_neg hc]
      cases h : splitNl rest with
      | nil => exact absurd h (splitNl_ne_nil rest)
      | cons l ls =>
        rw [h] at ih
        cases ls with
        | nil =>
          simp only [joinNl] at ih ⊢
          rw [ih]
        | cons l' ls' =>
          rw [joinNl_cons _ _ (by simp)] at ih ⊢
          rw [List.cons_append, ih]

theorem joinNl_eq_nil {ls : List (List Char)} (h : joinNl ls = []) :
    ls = [] ∨ ls = [[]] := by
  cases ls with
  | nil => exact Or.inl rfl
  | cons l ls' =>
    cases ls' with
    | nil => right; simp only [joinNl] at h; rw [h]
    | cons l' ls'' => rw [joinNl_cons _ _ (by simp)] at h; simp at h

/-! ### stripCR, endsNl, endsCR -/

theorem stripCR_cons (c : Char) {m : List Char} (h : m ≠ []) :
    stripCR (c :: m) = c :: stripCR m := by
  cases m with
  | nil => exact absurd rfl h
  | cons c' r => rfl

theorem stripCR_concat (u : List Char) (c : Char) :
    stripCR (u ++ [c]) = if c = '\r' then u else u ++ [c] := by
  induction u with
  | nil => simp [stripCR]
  | cons a u' ih =>
    rw [List.cons_append, stripCR_cons a (by simp), ih]
    split <;> simp

theorem stripCR_self_append (l : List Char) : ∃ w, l = stripCR l ++ w := by
  induction l with
  | nil => exact ⟨[], rfl⟩
  | cons c m ih =>
    cases m with
    | nil =>
      by_cases hc : c = '\r'
      · exact ⟨[c], by simp [stripCR, hc]⟩
      · exact ⟨[], by simp [stripCR, hc]⟩
    | cons c' r =>
      obtain ⟨w, hw⟩ := ih
      exact ⟨w, by rw [stripCR_cons c (by simp)]; rw [List.cons_append, ← hw]⟩

theorem stripCR_no_nl {l : List Char} (h : '\n' ∉ l) : '\n' ∉ stripCR l := by
  obtain ⟨w, hw⟩ := stripCR_self_append l
  intro hmem
  exact h (hw ▸ List.mem_append_left w hmem)

theorem endsNl_cons (c : Char) {m : List Char} (h : m ≠ []) :
    endsNl (c :: m) = endsNl m := by
  cases m with
  | nil => exact absurd rfl h
  | cons c' r => rfl

theorem endsNl_append (a : List Char) {b : List Char} (h : b ≠ []) :
    endsNl (a ++ b) = endsNl b := by
  induction a with
  | nil => rfl
  | cons c as ih =>
    rw [List.cons_append, endsNl_cons c (by simp [h]), ih]

theorem endsNl_concat (u : List Char) (c : Char) : endsNl (u ++ [c]) = (c == '\n') := by
  rw [endsNl_append u (by simp)]; rfl

theorem endsNl_false_of_no_nl {s : List Char} (h : '\n' ∉ s) : endsNl s = false := by
  induction s with
  | nil => rfl
  | cons c m ih =>
    rw [List.mem_cons, not_or] at h
    cases m with
    | nil =>
      simp only [endsNl, beq_eq_false_iff_ne, ne_eq]
      exact fun hc => h.1 hc.symm
    | cons c' r => rw [endsNl_cons c (by simp)]; exact ih h.2

theorem endsCR_cons (c : Char) {m : List Char} (h : m ≠ []) :
    endsCR (c :: m) = endsCR m := by
  cases m with
  | nil => exact absurd rfl h
  | cons c' r => rfl

theorem endsCR_append (a : List Char) {b : List Char} (h : b ≠ []) :
    endsCR (a ++ b) = endsCR b := by
  induction a with
  | nil => rfl
  | cons c as ih =>
    rw [List.cons_append, endsCR_cons c (by simp [h]), ih]

theorem endsCR_concat (u : List Char) (c : Char) : endsCR (u ++ [c]) = (c == '\r') := by
  rw [endsCR_append u (by simp)]; rfl

theorem endsCR_iff (l : List Char) : endsCR l = true ↔ ∃ u, l = u ++ ['\r'] := by
  constructor
  · intro h
    induction l with
    | nil => simp [endsCR] at h
    | cons c m ih =>
      cases m with
      | nil =>
        simp only [endsCR, beq_iff_eq] at h
        exact ⟨[], by simp [h]⟩
      | cons c' r =>
        rw [endsCR_cons c (by simp)] at h
        obtain ⟨u, hu⟩ := ih h
        exact ⟨c :: u, by rw [List.cons_append, ← hu]⟩
  · rintro ⟨u, rfl⟩
    rw [endsCR_concat]; rfl

theorem stripCR_of_not_endsCR {l : List Char} (h : endsCR l = false) : stripCR l = l := by
  induction l with
  | nil => rfl
  | cons c m ih =>
    cases m with
    | nil =>
      simp only [endsCR, beq_eq_false_iff_ne, ne_eq] at h
      simp [stripCR, h]
    | cons c' r =>
      rw [endsCR_cons c (by simp)] at h
      rw [stripCR_cons c (by simp), ih h]

theorem endsCR_stripCR {l : List Char} (h : endsCR (stripCR l) = true) :
    ∃ u, l = u ++ ['\r', '\r'] := by
  cases hE : endsCR l with
  | false => rw [stripCR_of_not_endsCR hE] at h; rw [hE] at h; cases h
  | true =>
    obtain ⟨u, rfl⟩ := (endsCR_iff l).1 hE
    rw [stripCR_concat, if_pos rfl] at h
    obtain ⟨u', rfl⟩ := (endsCR_iff u).1 h
    exact ⟨u', by simp⟩

/-! ### rustLines -/

theorem linesParts_eq_nil {ps : List (List Char)} (h : linesParts ps = []) :
    ps = [] ∨ ps = [[]] := by
  cases ps with
  | nil => exact Or.inl rfl
  | cons p ps' =>
    cases ps' with
    | nil =>
      simp only [linesParts] at h
      by_cases hp : p = []
      · exact Or.inr (by rw [hp])
      · rw [if_neg hp] at h; cases h
    | cons q r => simp only [linesParts] at h; cases h

theorem rustLines_nil : rustLines [] = [] := rfl

theorem rustLines_no_nl {s : List Char} (h : '\n' ∉ s) (hs : s ≠ []) :
    rustLines s = [s] := by
  rw [rustLines, splitNl_no_nl s h]
  simp only [linesParts, if_neg hs]

theorem rustLines_append (l rest : List Char) (hl : '\n' ∉ l) :
    rustLines (l ++ '\n' :: rest) = stripCR l :: rustLines rest := by
  rw [rustLines, splitNl_append l rest hl]
  cases h : splitNl rest with
  | nil => exact absurd h (splitNl_ne_nil rest)
  | cons p ps =>
    rw [rustLines, h]
    rfl

theorem rustLines_eq_nil {s : List Char} (h : rustLines s = []) : s = [] := by
  rcases linesParts_eq_nil h with h' | h'
  · exact absurd h' (splitNl_ne_nil s)
  · have := joinNl_splitNl s
    rw [h'] at this
    simpa [joinNl] using this.symm

/-- Inversion: `rustLines s = [[]]` forces `s = "\n"` — i.e. `endsNl s`. -/
theorem rustLines_single_nil {s : List Char} (h : rustLines s = [[]]) :
    endsNl s = true := by
  rw [rustLines] at h
  cases hs : splitNl s with
  | nil => exact absurd hs (splitNl_ne_nil s)
  | cons p ps =>
    rw [hs] at h
    cases ps with
    | nil =>
      simp only [linesParts] at h
      by_cases hp : p = []
      · rw [if_pos hp] at h; cases h
      · rw [if_neg hp] at h
        injection h with h1 _
        exact absurd h1 hp
    | cons q r =>
      simp only [linesParts] at h
      injection h with h1 h2
      rcases linesParts_eq_nil h2 with h' | h'
      · cases h'
      · injection h' with hq hr
        subst hq; subst hr
        have := joinNl_splitNl s
        rw [hs, joinNl_cons _ _ (by simp), joinNl] at this
        rw [← this, endsNl_concat]
        rfl

/-! ### uncheckLine -/

theorem uncheckLine_of_match {l : List Char} (r : List Char) (h : l = checkedPat ++ r) :
    uncheckLine l = '[' :: ']' :: ' ' :: r := by
  subst h
  rw [uncheckLine, if_pos ((leadsWith_iff _ _).2 ⟨r, rfl⟩)]
  rw [show (4 : Nat) = checkedPat.length from rfl, List.drop_left]

theorem uncheckLine_of_no_match {l : List Char} (h : leadsWith checkedPat l = false) :
    uncheckLine l = l := by
  rw [uncheckLine, if_neg (by rw [h]; exact Bool.false_ne_true)]

theorem uncheckLine_cases (l : List Char) :
    (∃ r, l = checkedPat ++ r ∧ uncheckLine l = '[' :: ']' :: ' ' :: r) ∨
      (leadsWith checkedPat l = false ∧ uncheckLine l = l) := by
  cases h : leadsWith checkedPat l with
  | true =>
    obtain ⟨r, hr⟩ := (leadsWith_iff _ _).1 h
    exact Or.inl ⟨r, hr, uncheckLine_of_match r hr⟩
  | false => exact Or.inr ⟨rfl, uncheckLine_of_no_match h⟩

theorem uncheckLine_no_nl {l : List Char} (h : '\n' ∉ l) : '\n' ∉ uncheckLine l := by
  rcases uncheckLine_cases l with ⟨r, hl, hu⟩ | ⟨_, hu⟩
  · rw [hu]
    intro hmem
    simp only [List.mem_cons] at hmem
    rcases hmem with h1 | h1 | h1 | h1
    · exact absurd h1 (by decide)
    · exact absurd h1 (by decide)
    · exact absurd h1 (by decide)
    · exact h (by rw [hl]; exact List.mem_append_right checkedPat h1)
  · rw [hu]; exact h

theorem uncheckLine_ne_nil {l : List Char} (h : l ≠ []) : uncheckLine l ≠ [] := by
  rcases uncheckLine_cases l with ⟨r, _, hu⟩ | ⟨_, hu⟩ <;> rw [hu] <;> simp [h]

theorem not_leadsWith_uncheckLine (l : List Char) :
    leadsWith checkedPat (uncheckLine l) = false := by
  rcases uncheckLine_cases l with ⟨r, _, hu⟩ | ⟨h, hu⟩ <;> rw [hu]
  · simp [leadsWith, checkedPat]
  · exact h

theorem endsCR_uncheckLine (l : List Char) : endsCR (uncheckLine l) = endsCR l := by
  rcases uncheckLine_cases l with ⟨r, hl, hu⟩ | ⟨_, hu⟩
  · rw [hu, hl]
    cases hr : r with
    | nil => rfl
    | cons c r' =>
      rw [show '[' :: ']' :: ' ' :: c :: r' = ['[', ']', ' '] ++ c :: r' from rfl,
        show checkedPat ++ c :: r' = ['[', 'x', ']', ' '] ++ c :: r' from rfl,
        endsCR_append _ (by simp), endsCR_append _ (by simp)]
  · rw [hu]

theorem uncheckLine_idem (l : List Char) : uncheckLine (uncheckLine l) = uncheckLine l :=
  uncheckLine_of_no_match (not_leadsWith_uncheckLine l)

theorem leadsWith_stripCR {t l : List Char} (h : leadsWith t (stripCR l) = true) :
    leadsWith t l = true := by
  obtain ⟨w, hw⟩ := stripCR_self_append l
  rw [hw]
  exact leadsWith_append h w

/-! ### Structure of uncheck_all -/

theorem uncheck_all_nil : uncheck_all [] = [] := rfl

theorem uncheck_all_no_nl {s : List Char} (h : '\n' ∉ s) :
    uncheck_all s = uncheckLine s := by
  cases hs : s == [] with
  | true =>
    have : s = [] := by simpa using hs
    subst this
    rfl
  | false =>
    have hne : s ≠ [] := by simpa using hs
    rw [uncheck_all, rustLines_no_nl h hne]
    simp only [List.map_cons, List.map_nil, joinNl]
    rw [endsNl_false_of_no_nl h]
    rfl

theorem uncheck_all_append (l rest : List Char) (hl : '\n' ∉ l) :
    uncheck_all (l ++ '\n' :: rest) =
      uncheckLine (stripCR l) ++ '\n' :: uncheck_all rest := by
  rw [uncheck_all, rustLines_append l rest hl]
  cases hr : rest == [] with
  | true =>
    have : rest = [] := by simpa using hr
    subst this
    simp only [rustLines_nil, List.map_cons, List.map_nil, joinNl]
    rw [endsNl_append l (by simp)]
    have hNl : endsNl ['\n'] = true := rfl
    rw [if_pos hNl, uncheck_all_nil]
  | false =>
    have hne : rest ≠ [] := by simpa using hr
    have hrl : rustLines rest ≠ [] := fun h => hne (rustLines_eq_nil h)
    simp only [List.map_cons]
    rw [joinNl_cons _ _ (by simpa using hrl)]
    rw [endsNl_append l (by simp), endsNl_cons '\n' hne]
    rw [uncheck_all]
    split <;> simp

theorem uncheck_all_ne_nil {s : List Char} (h : s ≠ []) : uncheck_all s ≠ [] := by
  rw [uncheck_all]
  cases he : endsNl s with
  | true => simp
  | false =>
    simp only [Bool.false_eq_true, if_false]
    intro hout
    rcases joinNl_eq_nil hout with h' | h'
    · rw [List.map_eq_nil_iff] at h'
      exact h (rustLines_eq_nil h')
    · have : rustLines s = [[]] := by
        cases hls : rustLines s with
        | nil => exact absurd (rustLines_eq_nil hls) h
        | cons x xs =>
          rw [hls] at h'
          simp only [List.map_cons] at h'
          injection h' with h1 h2
          rw [List.map_eq_nil_iff] at h2
          have hx : x = [] := by
            by_contra hx
            exact uncheckLine_ne_nil hx h1
          rw [hx, h2]
      rw [rustLines_single_nil this] at he
      cases he

/-! ### Induction over the line structure of a string -/

theorem firstNlSplit {s : List Char} (h : '\n' ∈ s) :
    ∃ l rest, '\n' ∉ l ∧ s = l ++ '\n' :: rest := by
  induction s with
  | nil => cases h
  | cons c cs ih =>
    by_cases hc : c = '\n'
    · exact ⟨[], cs, by simp, by rw [hc]; rfl⟩
    · have hmem : '\n' ∈ cs := by
        rcases List.mem_cons.1 h with h1 | h1
        · exact absurd h1.symm hc
        · exact h1
      obtain ⟨l, rest, hnl, rfl⟩ := ih hmem
      refine ⟨c :: l, rest, ?_, rfl⟩
      rw [List.mem_cons]
      push_neg
      exact ⟨fun hh => hc hh.symm, hnl⟩

theorem lineInduction (P : List Char → Prop) (base : ∀ s, '\n' ∉ s → P s)
    (step : ∀ l rest, '\n' ∉ l → P rest → P (l ++ '\n' :: rest)) : ∀ s, P s := by
  have main : ∀ n s, List.length s ≤ n → P s := by
    intro n
    induction n with
    | zero =>
      intro s hs
      have : s = [] := List.length_eq_zero.1 (Nat.le_zero.1 hs)
      subst this
      exact base [] (by simp)
    | succ n ih =>
      intro s hs
      by_cases hn : '\n' ∈ s
      · obtain ⟨l, rest, hnl, rfl⟩ := firstNlSplit hn
        have hlen : rest.length ≤ n := by
          simp only [List.length_append, List.length_cons] at hs
          omega
        exact step l rest hnl (ih rest hlen)
      · exact base s hn
  intro s
  exact main s.length s le_rfl

/-! ### Specification-side description of uncheck_all -/

/-- Modelled from the spec (§4.1 `uncheck_all`): "Rewrites the file so that
every line beginning with `[x] ` becomes `[] ` (the inside-bracket `x` is
replaced by empty; the surrounding `] ` is preserved).  All other bytes are
preserved verbatim except line terminators are normalized to `\n` during
rewrite, with a trailing newline iff the original file had one."
`uncheckSpecGo atStart s` scans the raw character stream: at the start of a
line a literal `[x] ` is rewritten to `[] `; a `\r\n` terminator is
normalized to `\n`; every other character is copied unchanged. -/
def uncheckSpecGo : Bool → List Char → List Char
  | _, [] => []
  | atStart, c :: rest =>
    if atStart = true ∧ leadsWith checkedPat (c :: rest) = true then
      '[' :: ']' :: ' ' :: uncheckSpecGo false ((c :: rest).drop 4)
    else if c = '\r' ∧ rest.head? = some '\n' then
      '\n' :: uncheckSpecGo true rest.tail
    else if c = '\n' then
      '\n' :: uncheckSpecGo true rest
    else
      c :: uncheckSpecGo false rest
termination_by _ l => l.length
decreasing_by
  all_goals simp
  all_goals omega

/-- The spec-side rewrite of a whole file starts at the beginning of a line. -/
def uncheckSpec (s : List Char) : List Char := uncheckSpecGo true s

theorem uncheckSpecGo_empty (b : Bool) : uncheckSpecGo b [] = [] := by
  rw [uncheckSpecGo]

theorem head_nl_mem {r : List Char} (h : r.head? = some '\n') : '\n' ∈ r := by
  cases r with
  | nil => cases h
  | cons c' r' =>
    simp only [List.head?] at h
    injection h with h
    rw [h]
    exact List.mem_cons_self _ _

theorem lw_pat_false {c : Char} (rest : List Char) (h : c ≠ '[') :
    leadsWith checkedPat (c :: rest) = false := by
  show (('[' == c) && leadsWith ['x', ']', ' '] rest) = false
  have : ('[' == c) = false := by
    simp only [beq_eq_false_iff_ne, ne_eq]
    exact fun hh => h hh.symm
  rw [this, Bool.false_and]

theorem uncheckSpecGo_nl (b : Bool) (rest : List Char) :
    uncheckSpecGo b ('\n' :: rest) = '\n' :: uncheckSpecGo true rest := by
  rw [uncheckSpecGo, if_neg ?h1, if_neg ?h2, if_pos rfl]
  case h1 =>
    rintro ⟨_, hh⟩
    rw [lw_pat_false rest (by decide)] at hh
    cases hh
  case h2 =>
    rintro ⟨hh, _⟩
    exact absurd hh (by decide)

theorem uncheckSpecGo_crnl (b : Bool) (rest : List Char) :
    uncheckSpecGo b ('\r' :: '\n' :: rest) = '\n' :: uncheckSpecGo true rest := by
  rw [uncheckSpecGo, if_neg ?h1, if_pos ⟨rfl, rfl⟩]
  case h1 =>
    rintro ⟨_, hh⟩
    rw [lw_pat_false ('\n' :: rest) (by decide)] at hh
    cases hh
  rfl

theorem uncheckSpecGo_pat (rest : List Char) :
    uncheckSpecGo true ('[' :: 'x' :: ']' :: ' ' :: rest) =
      '[' :: ']' :: ' ' :: uncheckSpecGo false rest := by
  rw [uncheckSpecGo, if_pos ⟨rfl, (leadsWith_iff checkedPat _).2 ⟨rest, rfl⟩⟩]
  rfl

theorem uncheckSpecGo_default (b : Bool) (c : Char) (rest : List Char)
    (hb : b = false ∨ leadsWith checkedPat (c :: rest) = false)
    (h2 : ¬(c = '\r' ∧ rest.head? = some '\n')) (h3 : c ≠ '\n') :
    uncheckSpecGo b (c :: rest) = c :: uncheckSpecGo false rest := by
  rw [uncheckSpecGo, if_neg ?h1, if_neg h2, if_neg h3]
  case h1 =>
    rintro ⟨hb', hl'⟩
    rcases hb with hb | hb
    · rw [hb] at hb'; cases hb'
    · rw [hb] at hl'; cases hl'

theorem uncheckSpecGo_false_no_nl {m : List Char} (h : '\n' ∉ m) :
    uncheckSpecGo false m = m := by
  induction m with
  | nil => exact uncheckSpecGo_empty false
  | cons c r ih =>
    rw [List.mem_cons, not_or] at h
    rw [uncheckSpecGo_default false c r (Or.inl rfl) ?hh2
      (fun hc : c = '\n' => h.1 hc.symm)]
    · rw [ih h.2]
    case hh2 =>
      rintro ⟨_, hh⟩
      exact h.2 (head_nl_mem hh)

theorem uncheckSpecGo_false_line {m : List Char} (rest : List Char) (h : '\n' ∉ m) :
    uncheckSpecGo false (m ++ '\n' :: rest) =
      stripCR m ++ '\n' :: uncheckSpecGo true rest := by
  induction m with
  | nil =>
    rw [List.nil_append, uncheckSpecGo_nl]
    rfl
  | cons c m' ih =>
    rw [List.mem_cons, not_or] at h
    cases hm : m' with
    | nil =>
      subst hm
      by_cases hc : c = '\r'
      · subst hc
        rw [List.cons_append, List.nil_append, uncheckSpecGo_crnl]
        rfl
      · rw [List.cons_append, List.nil_append,
          uncheckSpecGo_default false c ('\n' :: rest) (Or.inl rfl)
            (by rintro ⟨hh, _⟩; exact hc hh) (fun hh : c = '\n' => h.1 hh.symm),
          uncheckSpecGo_nl]
        simp [stripCR, hc]
    | cons c'' r'' =>
      subst hm
      rw [List.cons_append,
        uncheckSpecGo_default false c _ (Or.inl rfl) ?hh2
          (fun hh : c = '\n' => h.1 hh.symm)]
      · rw [ih h.2, stripCR_cons c (by simp)]
        rfl
      case hh2 =>
        rintro ⟨_, hh⟩
        rw [List.cons_append] at hh
        simp only [List.head?] at hh
        injection hh with hh
        exact h.2 (by rw [hh]; exact List.mem_cons_self _ _)

theorem stripCR_checkedPat_append (r : List Char) :
    stripCR (checkedPat ++ r) = checkedPat ++ stripCR r := by
  cases r with
  | nil => decide
  | cons c r' =>
    rw [show checkedPat ++ c :: r' = '[' :: 'x' :: ']' :: ' ' :: c :: r' from rfl]
    rw [stripCR_cons _ (by simp), stripCR_cons _ (by simp), stripCR_cons _ (by simp),
      stripCR_cons _ (by simp)]
    rfl

theorem leadsWith_line : ∀ (t l rest : List Char), '\n' ∉ t → '\n' ∉ l →
    leadsWith t (l ++ '\n' :: rest) = leadsWith t l := by
  intro t
  induction t with
  | nil => intro l rest _ _; rfl
  | cons a as ih =>
    intro l rest ht hl
    rw [List.mem_cons, not_or] at ht
    cases l with
    | nil =>
      rw [List.nil_append]
      show (a == '\n' && leadsWith as rest) = leadsWith (a :: as) []
      have : (a == '\n') = false := by
        simp only [beq_eq_false_iff_ne, ne_eq]
        exact fun hh => ht.1 hh.symm
      rw [this, Bool.false_and]
      rfl
    | cons b bs =>
      rw [List.mem_cons, not_or] at hl
      rw [List.cons_append]
      show (a == b && leadsWith as (bs ++ '\n' :: rest)) = (a == b && leadsWith as bs)
      rw [ih bs rest ht.2 hl.2]

theorem uncheckSpecGo_true_line {l : List Char} (rest : List Char) (hl : '\n' ∉ l) :
    uncheckSpecGo true (l ++ '\n' :: rest) =
      uncheckLine (stripCR l) ++ '\n' :: uncheckSpecGo true rest := by
  cases hmatch : leadsWith checkedPat l with
  | true =>
    obtain ⟨r, rfl⟩ := (leadsWith_iff _ _).1 hmatch
    have hr : '\n' ∉ r := fun hh => hl (List.mem_append_right checkedPat hh)
    rw [stripCR_checkedPat_append, uncheckLine_of_match (stripCR r) rfl]
    rw [List.append_assoc]
    rw [show checkedPat ++ (r ++ '\n' :: rest) =
      '[' :: 'x' :: ']' :: ' ' :: (r ++ '\n' :: rest) from rfl]
    rw [uncheckSpecGo_pat, uncheckSpecGo_false_line rest hr]
    rfl
  | false =>
    have huncheck : uncheckLine (stripCR l) = stripCR l := by
      apply uncheckLine_of_no_match
      cases hsw : leadsWith checkedPat (stripCR l) with
      | false => rfl
      | true => rw [leadsWith_stripCR hsw] at hmatch; cases hmatch
    rw [huncheck]
    cases l with
    | nil =>
      rw [List.nil_append, uncheckSpecGo_nl]
      rfl
    | cons c m =>
      rw [List.mem_cons, not_or] at hl
      have hlw : leadsWith checkedPat (c :: (m ++ '\n' :: rest)) = false := by
        rw [← List.cons_append,
          leadsWith_line checkedPat (c :: m) rest (by decide)
            (by rw [List.mem_cons]; push_neg; exact ⟨hl.1, hl.2⟩)]
        exact hmatch
      cases hm : m with
      | nil =>
        subst hm
        by_cases hc : c = '\r'
        · subst hc
          rw [List.cons_append, List.nil_append, uncheckSpecGo_crnl]
          rfl
        · rw [List.cons_append, List.nil_append,
            uncheckSpecGo_default true c ('\n' :: rest) (Or.inr (by simpa using hlw))
              (by rintro ⟨hh, _⟩; exact hc hh) (fun hh : c = '\n' => hl.1 hh.symm),
            uncheckSpecGo_nl]
          simp [stripCR, hc]
      | cons c'' r'' =>
        subst hm
        rw [List.cons_append,
          uncheckSpecGo_default true c _ (Or.inr hlw) ?hh2
            (fun hh : c = '\n' => hl.1 hh.symm)]
        · rw [uncheckSpecGo_false_line rest hl.2, stripCR_cons c (by simp)]
          rfl
        case hh2 =>
          rintro ⟨_, hh⟩
          rw [List.cons_append] at hh
          simp only [List.head?] at hh
          injection hh with hh
          exact hl.2 (by rw [hh]; exact List.mem_cons_self _ _)

theorem uncheckSpecGo_true_no_nl {s : List Char} (h : '\n' ∉ s) :
    uncheckSpecGo true s = uncheckLine s := by
  cases hmatch : leadsWith checkedPat s with
  | true =>
    obtain ⟨r, rfl⟩ := (leadsWith_iff _ _).1 hmatch
    have hr : '\n' ∉ r := fun hh => h (List.mem_append_right checkedPat hh)
    rw [uncheckLine_of_match r rfl]
    rw [show checkedPat ++ r = '[' :: 'x' :: ']' :: ' ' :: r from rfl]
    rw [uncheckSpecGo_pat, uncheckSpecGo_false_no_nl hr]
  | false =>
    rw [uncheckLine_of_no_match hmatch]
    cases s with
    | nil => exact uncheckSpecGo_empty true
    | cons c m =>
      rw [List.mem_cons, not_or] at h
      rw [uncheckSpecGo_default true c m (Or.inr hmatch) ?hh2
        (fun hc : c = '\n' => h.1 hc.symm)]
      · rw [uncheckSpecGo_false_no_nl h.2]
      case hh2 =>
        rintro ⟨_, hh⟩
        exact h.2 (head_nl_mem hh)

/-- The source `uncheck_all` coincides with the spec's description. -/
theorem uncheck_all_eq_spec (s : List Char) : uncheck_all s = uncheckSpec s := by
  induction s using lineInduction with
  | base s h => rw [uncheck_all_no_nl h, uncheckSpec, uncheckSpecGo_true_no_nl h]
  | step l rest hl ih =>
    rw [uncheck_all_append l rest hl, uncheckSpec, uncheckSpecGo_true_line rest hl]
    rw [← uncheckSpec, ← ih]

/-! ### parse_checkboxes facts -/

theorem matchCheckbox_some {x : List Char} {nb : List Char × Bool}
    (h : matchCheckbox x = some nb) :
    (x = checkedPat ++ nb.1 ∧ nb.2 = true ∧ nb.1 ≠ []) ∨
      (x = '[' :: ' ' :: ']' :: ' ' :: nb.1 ∧ nb.2 = false ∧ nb.1 ≠ []) ∨
      (x = '[' :: ']' :: ' ' :: nb.1 ∧ nb.2 = false ∧ nb.1 ≠ []) := by
  unfold matchCheckbox at h
  split at h
  · rename_i rest
    by_cases hr : rest = []
    · rw [if_pos hr] at h; cases h
    · rw [if_neg hr] at h
      injection h with h
      subst h
      exact Or.inl ⟨rfl, rfl, hr⟩
  · rename_i rest
    by_cases hr : rest = []
    · rw [if_pos hr] at h; cases h
    · rw [if_neg hr] at h
      injection h with h
      subst h
      exact Or.inr (Or.inl ⟨rfl, rfl, hr⟩)
  · rename_i rest
    by_cases hr : rest = []
    · rw [if_pos hr] at h; cases h
    · rw [if_neg hr] at h
      injection h with h
      subst h
      exact Or.inr (Or.inr ⟨rfl, rfl, hr⟩)
  · cases h

theorem matchCheckbox_unchecked {u : List Char} (hu : leadsWith checkedPat u = false)
    {nb : List Char × Bool} (h : matchCheckbox u = some nb) : nb.2 = false := by
  rcases matchCheckbox_some h with ⟨hx, _, _⟩ | ⟨_, hb, _⟩ | ⟨_, hb, _⟩
  · rw [hx, (leadsWith_iff checkedPat _).2 ⟨nb.1, rfl⟩] at hu
    cases hu
  · exact hb
  · exact hb

theorem parse_uncheck_unchecked (s : List Char) :
    ∀ p ∈ parse_checkboxes (uncheck_all s), p.2 = false := by
  induction s using lineInduction with
  | base s h =>
    rw [uncheck_all_no_nl h]
    by_cases hs : s = []
    · subst hs
      intro p hp
      cases hp
    · have hne : uncheckLine s ≠ [] := uncheckLine_ne_nil hs
      rw [parse_checkboxes, rustLines_no_nl (uncheckLine_no_nl h) hne]
      intro p hp
      rw [List.filterMap_cons] at hp
      cases hmc : matchCheckbox (uncheckLine s) with
      | none => rw [hmc] at hp; cases hp
      | some nb =>
        rw [hmc] at hp
        rcases List.mem_cons.1 hp with rfl | hp'
        · exact matchCheckbox_unchecked (not_leadsWith_uncheckLine s) hmc
        · cases hp'
  | step l rest hl ih =>
    rw [uncheck_all_append l rest hl]
    have hu_nl : '\n' ∉ uncheckLine (stripCR l) := uncheckLine_no_nl (stripCR_no_nl hl)
    rw [parse_checkboxes, rustLines_append _ _ hu_nl]
    intro p hp
    rw [List.filterMap_cons] at hp
    cases hmc : matchCheckbox (stripCR (uncheckLine (stripCR l))) with
    | none => rw [hmc] at hp; exact ih p hp
    | some nb =>
      rw [hmc] at hp
      rcases List.mem_cons.1 hp with rfl | hp'
      · refine matchCheckbox_unchecked ?_ hmc
        cases hsw : leadsWith checkedPat (stripCR (uncheckLine (stripCR l))) with
        | false => rfl
        | true =>
          have := leadsWith_stripCR hsw
          rw [not_leadsWith_uncheckLine (stripCR l)] at this
          cases this
      · exact ih p hp'

theorem endsNl_uncheck_all (s : List Char) : endsNl (uncheck_all s) = endsNl s := by
  induction s using lineInduction with
  | base s h =>
    rw [uncheck_all_no_nl h, endsNl_false_of_no_nl h,
      endsNl_false_of_no_nl (uncheckLine_no_nl h)]
  | step l rest hl ih =>
    rw [uncheck_all_append l rest hl]
    by_cases hr : rest = []
    · subst hr
      rw [uncheck_all_nil]
      rw [show uncheckLine (stripCR l) ++ '\n' :: [] = uncheckLine (stripCR l) ++ ['\n']
        from rfl, endsNl_concat]
      rw [show l ++ '\n' :: [] = l ++ ['\n'] from rfl, endsNl_concat]
    · have h1 : uncheck_all rest ≠ [] := uncheck_all_ne_nil hr
      rw [endsNl_append _ (by simp), endsNl_cons '\n' h1, ih,
        endsNl_append l (by simp), endsNl_cons '\n' hr]

/-! ### Claim C3 -/

/-- Claim C3: for every file contents, after `uncheck_all` the parse returns
only unchecked entries; the rewrite performs exactly the spec-side
normalization `uncheckSpec` (every line not beginning with `[x] ` is copied
byte-for-byte, `[x] ` line heads become `[] `, and line terminators are
normalized to `\n`); and the result ends with a newline iff the input did. -/
theorem c3_reset_law (s : List Char) :
    (∀ p ∈ parse_checkboxes (uncheck_all s), p.2 = false) ∧
      uncheck_all s = uncheckSpec s ∧ endsNl (uncheck_all s) = endsNl s :=
  ⟨parse_uncheck_unchecked s, uncheck_all_eq_spec s, endsNl_uncheck_all s⟩

/-- Witness for C3 at the concrete contents `"[x] a\r\nkeep\n"`. -/
theorem c3_reset_law_witness :
    (("a".data, false).2 = false) ∧
      uncheck_all "[x] a\r\nkeep\n".data = uncheckSpec "[x] a\r\nkeep\n".data :=
  ⟨(c3_reset_law "[x] a\r\nkeep\n".data).1 ("a".data, false) (by decide),
    (c3_reset_law "[x] a\r\nkeep\n".data).2.1⟩

/-! ### Claim C10 -/

/-- Claim C10 counterexample: `uncheck_all` is not idempotent.  On the
contents `"a\r\r\nb"` the first pass yields `"a\r\nb"` (Rust `lines()`
strips one `\r` before the terminator) and the second pass strips the newly
exposed `\r\n`, yielding `"a\nb"`. -/
theorem c10_counterexample :
    uncheck_all (uncheck_all "a\r\r\nb".data) ≠ uncheck_all "a\r\r\nb".data := by
  decide

/-- Claim C10 (amended): `uncheck_all` is idempotent on every file contents
that does not contain the character sequence `"\r\r\n"`; after one
application no line begins with `[x] ` and no remaining line terminator
needs further normalization. -/
theorem c10_idempotent : ∀ s : List Char, hasSeq ['\r', '\r', '\n'] s = false →
    uncheck_all (uncheck_all s) = uncheck_all s := by
  intro s
  induction s using lineInduction with
  | base s hnl =>
    intro _
    rw [uncheck_all_no_nl hnl, uncheck_all_no_nl (uncheckLine_no_nl hnl), uncheckLine_idem]
  | step l rest hl ih =>
    intro h
    have h1 : hasSeq ['\r', '\r', '\n'] rest = false := by
      cases hq : hasSeq ['\r', '\r', '\n'] rest with
      | false => rfl
      | true =>
        have := hasSeq_append_left _ rest hq (l ++ ['\n'])
        rw [show (l ++ ['\n']) ++ rest = l ++ '\n' :: rest by simp] at this
        rw [this] at h
        cases h
    have h2 : endsCR (stripCR l) = false := by
      cases hq : endsCR (stripCR l) with
      | false => rfl
      | true =>
        obtain ⟨u, rfl⟩ := endsCR_stripCR hq
        have := hasSeq_of_decomp ['\r', '\r', '\n'] u rest
        rw [show u ++ ['\r', '\r', '\n'] ++ rest = (u ++ ['\r', '\r']) ++ '\n' :: rest
          by simp] at this
        rw [this] at h
        cases h
    rw [uncheck_all_append l rest hl]
    have hu_nl : '\n' ∉ uncheckLine (stripCR l) := uncheckLine_no_nl (stripCR_no_nl hl)
    rw [uncheck_all_append _ _ hu_nl, ih h1,
      stripCR_of_not_endsCR (by rw [endsCR_uncheckLine]; exact h2), uncheckLine_idem]

/-- Witness for the amended C10 at the concrete contents `"[x] a\r\nb"`. -/
theorem c10_idempotent_witness :
    uncheck_all (uncheck_all "[x] a\r\nb".data) = uncheck_all "[x] a\r\nb".data :=
  c10_idempotent "[x] a\r\nb".data (by decide)

/-! ### Claim C4 -/

/-- Modelled from the spec (§3 checkbox line, §8 law 3): a line matches the
grammar `^\[(x|\s?)\] (.+)$` — a literal `[`, then capture 1 (`x`, one
space, or empty), then `] `, then a nonempty capture 2; *checked* iff
capture 1 equals `x`. -/
def checkboxGrammar (l : List Char) : Option (List Char × Bool) :=
  if leadsWith ['[', 'x', ']', ' '] l then
    (if l.drop 4 = [] then none else some (l.drop 4, true))
  else if leadsWith ['[', ' ', ']', ' '] l then
    (if l.drop 4 = [] then none else some (l.drop 4, false))
  else if leadsWith ['[', ']', ' '] l then
    (if l.drop 3 = [] then none else some (l.drop 3, false))
  else none

theorem matchCheckbox_eq_grammar (l : List Char) :
    matchCheckbox l = checkboxGrammar l := by
  unfold matchCheckbox
  split
  · rename_i rest
    rw [checkboxGrammar, if_pos (show leadsWith ['[', 'x', ']', ' ']
      ('[' :: 'x' :: ']' :: ' ' :: rest) = true from
        (leadsWith_iff ['[', 'x', ']', ' '] _).2 ⟨rest, rfl⟩)]
    rfl
  · rename_i rest
    rw [checkboxGrammar,
      if_neg (show ¬leadsWith ['[', 'x', ']', ' ']
        ('[' :: ' ' :: ']' :: ' ' :: rest) = true from fun hh => by cases hh),
      if_pos (show leadsWith ['[', ' ', ']', ' ']
        ('[' :: ' ' :: ']' :: ' ' :: rest) = true from
          (leadsWith_iff ['[', ' ', ']', ' '] _).2 ⟨rest, rfl⟩)]
    rfl
  · rename_i rest
    rw [checkboxGrammar,
      if_neg (show ¬leadsWith ['[', 'x', ']', ' ']
        ('[' :: ']' :: ' ' :: rest) = true from fun hh => by cases hh),
      if_neg (show ¬leadsWith ['[', ' ', ']', ' ']
        ('[' :: ']' :: ' ' :: rest) = true from fun hh => by cases hh),
      if_pos (show leadsWith ['[', ']', ' ']
        ('[' :: ']' :: ' ' :: rest) = true from
          (leadsWith_iff ['[', ']', ' '] _).2 ⟨rest, rfl⟩)]
    rfl
  · rename_i x h1 h2 h3
    rw [checkboxGrammar, if_neg ?c1, if_neg ?c2, if_neg ?c3]
    case c1 =>
      intro hh
      obtain ⟨r, rfl⟩ := (leadsWith_iff _ _).1 hh
      exact h1 r rfl
    case c2 =>
      intro hh
      obtain ⟨r, rfl⟩ := (leadsWith_iff _ _).1 hh
      exact h2 r rfl
    case c3 =>
      intro hh
      obtain ⟨r, rfl⟩ := (leadsWith_iff _ _).1 hh
      exact h3 r rfl

/-- Claim C4: `parse_checkboxes` yields, in file order, one entry per line
matching the checkbox grammar and skips all other lines; a bracket content
of exactly `x` is checked, empty or a single space is unchecked, and no
other bracket content matches (`[X]`, `[*]`, `[ x]` lines are ignored). -/
theorem c4_checkbox_grammar (s : List Char) :
    parse_checkboxes s = (rustLines s).filterMap checkboxGrammar ∧
      (∀ g rest : List Char, (g = [] ∨ g = [' '] ∨ g = ['x']) → rest ≠ [] →
        matchCheckbox ('[' :: (g ++ ']' :: ' ' :: rest)) =
          some (rest, decide (g = ['x']))) ∧
      (∀ (x : List Char) (nb : List Char × Bool), matchCheckbox x = some nb →
        ∃ g, (g = [] ∨ g = [' '] ∨ g = ['x']) ∧ nb.1 ≠ [] ∧
          x = '[' :: (g ++ ']' :: ' ' :: nb.1) ∧ nb.2 = decide (g = ['x'])) ∧
      parse_checkboxes "[] a\n[ ] b\n[x] c\n[X] d\n[*] e\n[ x] f\n".data =
        [("a".data, false), ("b".data, false), ("c".data, true)] := by
  refine ⟨?_, ?_, ?_, by decide⟩
  · rw [parse_checkboxes]
    exact List.filterMap_congr (fun l _ => matchCheckbox_eq_grammar l)
  · intro g rest hg hr
    rcases hg with rfl | rfl | rfl
    · show (if rest = [] then none else some (rest, false)) = _
      rw [if_neg hr]
      rfl
    · show (if rest = [] then none else some (rest, false)) = _
      rw [if_neg hr]
      rfl
    · show (if rest = [] then none else some (rest, true)) = _
      rw [if_neg hr]
      rfl
  · intro x nb h
    rcases matchCheckbox_some h with ⟨hx, hb, hne⟩ | ⟨hx, hb, hne⟩ | ⟨hx, hb, hne⟩
    · exact ⟨['x'], Or.inr (Or.inr rfl), hne, by rw [hx]; rfl, by rw [hb]; rfl⟩
    · exact ⟨[' '], Or.inr (Or.inl rfl), hne, by rw [hx]; rfl, by rw [hb]; rfl⟩
    · exact ⟨[], Or.inl rfl, hne, by rw [hx]; rfl, by rw [hb]; rfl⟩

/-- Witness for C4 at the concrete line `"[x] name"`. -/
theorem c4_checkbox_grammar_witness :
    matchCheckbox ('[' :: (['x'] ++ ']' :: ' ' :: "name".data)) =
      some ("name".data, decide ((['x'] : List Char) = ['x'])) :=
  (c4_checkbox_grammar []).2.1 ['x'] "name".data (Or.inr (Or.inr rfl)) (by decide)

/-! ## The orchestration loop (src/runner.rs::run_loop) -/

/-- Model of `app.rs::Verifier`. -/
structure Verifier where
  name : String
  prompt : String
  enabled : Bool
deriving DecidableEq

/-- Model of `app.rs::VerifierStatus`. -/
inductive VerifierStatus where
  | Pending
  | Running
  | Passed
  | Failed
deriving DecidableEq

/-- Model of `app.rs::RunnerMessage`, the events sent from the runner task
to the TUI over the unbounded channel. -/
inductive RunnerMessage where
  | Log : String → RunnerMessage
  | VerifierStatusUpdate : Nat → VerifierStatus → RunnerMessage
  | IterationStart : Nat → RunnerMessage
  | FileUpdated : RunnerMessage
  | Done : RunnerMessage
  | Error : String → RunnerMessage
deriving DecidableEq

/-- Oracle for the external environment of one run: the outcome of each CLI
invocation (`run_claude`) in the worker and verifier phases, the file
contents read by `parse_checkboxes` after the verifier call of a given
(iteration, index), and the outcome of each `uncheck_all` filesystem call.
`Except.error` carries the error string the source interpolates with
`format!`. -/
structure Oracle where
  workerRes : Nat → Except String String
  verifierRes : Nat → Nat → Except String String
  readAt : Nat → Nat → Except String (List Char)
  uncheckRes : Nat → Except String Unit

/-- One verifier of the verifier phase (`runner.rs` lines 88-176): the
events emitted for verifier `v` at 0-based index `i`, and whether the
verifier counts as passed (`false` exactly in the arms where the source
sets `all_passed = false`). -/
def verifierStep (o : Oracle) (iter i : Nat) (v : Verifier) :
    List RunnerMessage × Bool :=
  let pre := [RunnerMessage.VerifierStatusUpdate i VerifierStatus.Running,
    RunnerMessage.Log ("Running verifier: " ++ v.name ++ "...")]
  match o.verifierRes iter i with
  | Except.error e =>
    (pre ++ [RunnerMessage.Error ("Verifier '" ++ v.name ++ "' failed to run: " ++ e),
      RunnerMessage.VerifierStatusUpdate i VerifierStatus.Failed], false)
  | Except.ok _ =>
    match o.readAt iter i with
    | Except.error e =>
      (pre ++ [RunnerMessage.FileUpdated,
        RunnerMessage.Error ("Failed to parse checkboxes: " ++ e)], false)
    | Except.ok contents =>
      let checkboxes := parse_checkboxes contents
      let passed :=
        ((checkboxes.find? (fun p => p.1 == v.name.data)).map Prod.snd).getD false
      if passed then
        (pre ++ [RunnerMessage.FileUpdated,
          RunnerMessage.VerifierStatusUpdate i VerifierStatus.Passed,
          RunnerMessage.Log (v.name ++ ": PASSED")], true)
      else
        (pre ++ [RunnerMessage.FileUpdated,
          RunnerMessage.VerifierStatusUpdate i VerifierStatus.Failed,
          RunnerMessage.Log (v.name ++ ": FAILED")], false)

/-- The verifier phase fold (`runner.rs` lines 87-176): verifiers in input
order with 0-based indices, accumulating the mutable `all_passed` flag. -/
def verifierPhase (o : Oracle) (iter : Nat) :
    Nat → Bool → List Verifier → List RunnerMessage × Bool
  | _, allPassed, [] => ([], allPassed)
  | i, allPassed, v :: vs =>
    let r := verifierStep o iter i v
    let rest := verifierPhase o iter (i + 1) (allPassed && r.2) vs
    (r.1 ++ rest.1, rest.2)

/-- One iteration of the loop body (`runner.rs` lines 58-197): the events
emitted and whether the loop returns (halts) during this iteration. -/
def iterEvents (o : Oracle) (vs : List Verifier) (iter : Nat) :
    List RunnerMessage × Bool :=
  let head := [RunnerMessage.IterationStart iter,
    RunnerMessage.Log ("--- Iteration " ++ toString iter ++ " ---"),
    RunnerMessage.Log "Starting worker..."]
  match o.workerRes iter with
  | Except.error e =>
    (head ++ [RunnerMessage.Error ("Worker failed: " ++ e)], true)
  | Except.ok _ =>
    let head := head ++ [RunnerMessage.Log "Worker complete.",
      RunnerMessage.FileUpdated]
    let vp := verifierPhase o iter 0 true vs
    if vp.2 then
      (head ++ vp.1 ++ [RunnerMessage.FileUpdated, RunnerMessage.Done], true)
    else
      let evs := head ++ vp.1 ++
        [RunnerMessage.Log "Not all verifiers passed. Unchecking all boxes and retrying..."]
      match o.uncheckRes iter with
      | Except.error e =>
        (evs ++ [RunnerMessage.Error ("Failed to uncheck boxes: " ++ e)], true)
      | Except.ok _ => (evs ++ [RunnerMessage.FileUpdated], false)

/-- The iteration driver (`runner.rs` `for iteration in 1..=max_iterations`
plus the code after the loop, lines 56-202): consumes the remaining
iteration numbers; on exhaustion emits the max-iterations error. -/
def loopGo (o : Oracle) (vs : List Verifier) (maxIter : Nat) :
    List Nat → List RunnerMessage
  | [] => [RunnerMessage.Error ("Reached maximum iterations (" ++ toString maxIter ++
      "). Stopping.")]
  | iter :: rest =>
    let r := iterEvents o vs iter
    if r.2 then r.1 else r.1 ++ loopGo o vs maxIter rest

/-- Model of `run_loop` (`runner.rs` lines 49-203) as the full event
sequence of one run, with `max_iterations = 10` fixed as in the source.
The task prompt parameter is received and ignored, as in the source
(`_prompt`). -/
def run_loop (o : Oracle) (_prompt : String) (vs : List Verifier) :
    List RunnerMessage :=
  loopGo o vs 10 (List.range' 1 10)

/-- The iteration number of an `IterationStart` event. -/
def msgIter : RunnerMessage → Option Nat
  | RunnerMessage.IterationStart n => some n
  | _ => none

/-- Concatenated events of a block of (non-halting) iterations. -/
def contEvents (o : Oracle) (vs : List Verifier) (js : List Nat) :
    List RunnerMessage :=
  (js.map (fun j => (iterEvents o vs j).1)).flatten

/-! ## The UI layer handing inputs to the loop (src/main.rs, src/app.rs) -/

/-- Model of the verifier-name list `run_app` (`main.rs` lines 94-95)
passes to `FileManager::create` when a run starts: the names of all
verifiers, not filtered by `enabled`. -/
def run_app_verifier_names (verifiers : List Verifier) : List String :=
  verifiers.map (fun v => v.name)

/-- Model of the verifier list `run_app` (`main.rs` lines 105-108) hands to
`run_loop`: `app.verifiers.clone()`, not filtered by `enabled`. -/
def run_app_runner_verifiers (verifiers : List Verifier) : List Verifier :=
  verifiers

/-- Model of `app.rs::App::start_running` (lines 149-158): the UI's
per-verifier status rows, filtered to enabled verifiers — the rows that
`handle_runner_message` later indexes with the `VerifierStatusUpdate`
indices produced by the loop. -/
def start_running_statuses (verifiers : List Verifier) :
    List (String × VerifierStatus) :=
  (verifiers.filter (fun v => v.enabled)).map
    (fun v => (v.name, VerifierStatus.Pending))

/-! ### Branch lemmas for the loop -/

theorem verifierPhase_cons (o : Oracle) (iter i : Nat) (allp : Bool) (v : Verifier)
    (vs : List Verifier) :
    verifierPhase o iter i allp (v :: vs) =
      ((verifierStep o iter i v).1 ++
        (verifierPhase o iter (i + 1) (allp && (verifierStep o iter i v).2) vs).1,
        (verifierPhase o iter (i + 1) (allp && (verifierStep o iter i v).2) vs).2) :=
  rfl

theorem verifierStep_parse_error (o : Oracle) (iter i : Nat) (v : Verifier)
    {out e : String} (hok : o.verifierRes iter i = Except.ok out)
    (herr : o.readAt iter i = Except.error e) :
    verifierStep o iter i v =
      ([RunnerMessage.VerifierStatusUpdate i VerifierStatus.Running,
        RunnerMessage.Log ("Running verifier: " ++ v.name ++ "..."),
        RunnerMessage.FileUpdated,
        RunnerMessage.Error ("Failed to parse checkboxes: " ++ e)], false) := by
  rw [verifierStep, hok, herr]
  rfl

theorem verifierStep_cli_error (o : Oracle) (iter i : Nat) (v : Verifier)
    {e : String} (herr : o.verifierRes iter i = Except.error e) :
    verifierStep o iter i v =
      ([RunnerMessage.VerifierStatusUpdate i VerifierStatus.Running,
        RunnerMessage.Log ("Running verifier: " ++ v.name ++ "..."),
        RunnerMessage.Error ("Verifier '" ++ v.name ++ "' failed to run: " ++ e),
        RunnerMessage.VerifierStatusUpdate i VerifierStatus.Failed], false) := by
  rw [verifierStep, herr]
  rfl

theorem verifierStep_read (o : Oracle) (iter i : Nat) (v : Verifier)
    {out : String} {contents : List Char}
    (hok : o.verifierRes iter i = Except.ok out)
    (hr : o.readAt iter i = Except.ok contents) :
    verifierStep o iter i v =
      (if (((parse_checkboxes contents).find?
            (fun p => p.1 == v.name.data)).map Prod.snd).getD false then
        ([RunnerMessage.VerifierStatusUpdate i VerifierStatus.Running,
          RunnerMessage.Log ("Running verifier: " ++ v.name ++ "..."),
          RunnerMessage.FileUpdated,
          RunnerMessage.VerifierStatusUpdate i VerifierStatus.Passed,
          RunnerMessage.Log (v.name ++ ": PASSED")], true)
      else
        ([RunnerMessage.VerifierStatusUpdate i VerifierStatus.Running,
          RunnerMessage.Log ("Running verifier: " ++ v.name ++ "..."),
          RunnerMessage.FileUpdated,
          RunnerMessage.VerifierStatusUpdate i VerifierStatus.Failed,
          RunnerMessage.Log (v.name ++ ": FAILED")], false)) := by
  rw [verifierStep, hok, hr]
  rfl

theorem verifierStep_msgs (o : Oracle) (iter i : Nat) (v : Verifier) :
    ∀ m ∈ (verifierStep o iter i v).1,
      msgIter m = none ∧ m ≠ RunnerMessage.Done := by
  intro m hm
  cases hv : o.verifierRes iter i with
  | error e =>
    rw [verifierStep_cli_error o iter i v hv] at hm
    simp only [List.mem_cons, List.not_mem_nil, or_false] at hm
    rcases hm with rfl | rfl | rfl | rfl <;> exact ⟨rfl, by simp⟩
  | ok out =>
    cases hr : o.readAt iter i with
    | error e =>
      rw [verifierStep_parse_error o iter i v hv hr] at hm
      simp only [List.mem_cons, List.not_mem_nil, or_false] at hm
      rcases hm with rfl | rfl | rfl | rfl <;> exact ⟨rfl, by simp⟩
    | ok contents =>
      rw [verifierStep_read o iter i v hv hr] at hm
      by_cases hp : (((parse_checkboxes contents).find?
          (fun p => p.1 == v.name.data)).map Prod.snd).getD false = true
      · rw [if_pos hp] at hm
        simp only [List.mem_cons, List.not_mem_nil, or_false] at hm
        rcases hm with rfl | rfl | rfl | rfl | rfl <;> exact ⟨rfl, by simp⟩
      · rw [if_neg hp] at hm
        simp only [List.mem_cons, List.not_mem_nil, or_false] at hm
        rcases hm with rfl | rfl | rfl | rfl | rfl <;> exact ⟨rfl, by simp⟩

theorem verifierPhase_msgs (o : Oracle) (iter : Nat) :
    ∀ (vs : List Verifier) (i : Nat) (b : Bool),
      ∀ m ∈ (verifierPhase o iter i b vs).1,
        msgIter m = none ∧ m ≠ RunnerMessage.Done := by
  intro vs
  induction vs with
  | nil => intro i b m hm; cases hm
  | cons v vs ih =>
    intro i b m hm
    rw [verifierPhase_cons] at hm
    rcases List.mem_append.1 hm with hm' | hm'
    · exact verifierStep_msgs o iter i v m hm'
    · exact ih (i + 1) _ m hm'

theorem iterEvents_workerErr (o : Oracle) (vs : List Verifier) (k : Nat) {e : String}
    (hw : o.workerRes k = Except.error e) :
    iterEvents o vs k =
      ([RunnerMessage.IterationStart k,
        RunnerMessage.Log ("--- Iteration " ++ toString k ++ " ---"),
        RunnerMessage.Log "Starting worker...",
        RunnerMessage.Error ("Worker failed: " ++ e)], true) := by
  rw [iterEvents, hw]
  rfl

theorem iterEvents_ok (o : Oracle) (vs : List Verifier) (k : Nat) {out : String}
    (hw : o.workerRes k = Except.ok out) :
    iterEvents o vs k =
      (let head := [RunnerMessage.IterationStart k,
          RunnerMessage.Log ("--- Iteration " ++ toString k ++ " ---"),
          RunnerMessage.Log "Starting worker...",
          RunnerMessage.Log "Worker complete.", RunnerMessage.FileUpdated]
        let vp := verifierPhase o k 0 true vs
        if vp.2 then
          (head ++ vp.1 ++ [RunnerMessage.FileUpdated, RunnerMessage.Done], true)
        else
          let evs := head ++ vp.1 ++
            [RunnerMessage.Log
              "Not all verifiers passed. Unchecking all boxes and retrying..."]
          match o.uncheckRes k with
          | Except.error e =>
            (evs ++ [RunnerMessage.Error ("Failed to uncheck boxes: " ++ e)], true)
          | Except.ok _ => (evs ++ [RunnerMessage.FileUpdated], false)) := by
  rw [iterEvents, hw]
  rfl

theorem loopGo_halt (o : Oracle) (vs : List Verifier) (m j : Nat) (rest : List Nat)
    (h : (iterEvents o vs j).2 = true) :
    loopGo o vs m (j :: rest) = (iterEvents o vs j).1 := by
  simp only [loopGo, h, if_true]

theorem loopGo_cont (o : Oracle) (vs : List Verifier) (m j : Nat) (rest : List Nat)
    (h : (iterEvents o vs j).2 = false) :
    loopGo o vs m (j :: rest) = (iterEvents o vs j).1 ++ loopGo o vs m rest := by
  simp only [loopGo, h, Bool.false_eq_true, if_false]

theorem contEvents_cons (o : Oracle) (vs : List Verifier) (j : Nat) (js : List Nat) :
    contEvents o vs (j :: js) = (iterEvents o vs j).1 ++ contEvents o vs js := by
  simp [contEvents]

theorem loopGo_cont_append (o : Oracle) (vs : List Verifier) (m : Nat) :
    ∀ (js js' : List Nat), (∀ j ∈ js, (iterEvents o vs j).2 = false) →
      loopGo o vs m (js ++ js') = contEvents o vs js ++ loopGo o vs m js' := by
  intro js
  induction js with
  | nil => intro js' _; simp [contEvents]
  | cons j js ih =>
    intro js' h
    rw [List.cons_append, loopGo_cont o vs m j _ (h j (List.mem_cons_self j js)),
      ih js' (fun j' hj' => h j' (List.mem_cons_of_mem j hj')), contEvents_cons,
      List.append_assoc]

/-! ### Claim C9 -/

/-- Claim C9: with an empty verifier list and a successful worker call in
iteration 1, the loop treats the iteration as fully passed and terminates
successfully on iteration 1: `IterationStart 1`, the worker logs,
`FileUpdated`, `FileUpdated`, `Done`; no `VerifierStatusUpdate`, no retry. -/
theorem c9_empty_verifiers (o : Oracle) (p out : String)
    (h : o.workerRes 1 = Except.ok out) :
    run_loop o p [] =
      [RunnerMessage.IterationStart 1, RunnerMessage.Log "--- Iteration 1 ---",
       RunnerMessage.Log "Starting worker...", RunnerMessage.Log "Worker complete.",
       RunnerMessage.FileUpdated, RunnerMessage.FileUpdated, RunnerMessage.Done] := by
  have hIter : iterEvents o [] 1 =
      ([RunnerMessage.IterationStart 1,
        RunnerMessage.Log ("--- Iteration " ++ toString 1 ++ " ---"),
        RunnerMessage.Log "Starting worker...", RunnerMessage.Log "Worker complete.",
        RunnerMessage.FileUpdated, RunnerMessage.FileUpdated, RunnerMessage.Done],
        true) := by
    rw [iterEvents_ok o [] 1 h]
    rfl
  rw [run_loop, show List.range' 1 10 = 1 :: List.range' 2 9 from rfl,
    loopGo_halt o [] 10 1 _ (by rw [hIter]), hIter]
  decide

/-- Witness for C9 at a concrete oracle whose worker call succeeds. -/
theorem c9_empty_verifiers_witness :
    run_loop ⟨fun _ => Except.ok "done", fun _ _ => Except.ok "",
        fun _ _ => Except.ok [], fun _ => Except.ok ()⟩ "task" [] =
      [RunnerMessage.IterationStart 1, RunnerMessage.Log "--- Iteration 1 ---",
       RunnerMessage.Log "Starting worker...", RunnerMessage.Log "Worker complete.",
       RunnerMessage.FileUpdated, RunnerMessage.FileUpdated, RunnerMessage.Done] :=
  c9_empty_verifiers _ "task" "done" rfl

/-! ### Iteration-level facts -/

theorem iterEvents_filterMap (o : Oracle) (vs : List Verifier) (k : Nat) :
    (iterEvents o vs k).1.filterMap msgIter = [k] := by
  have hvpm : (verifierPhase o k 0 true vs).1.filterMap msgIter = [] :=
    List.filterMap_eq_nil_iff.2 (fun m hm => (verifierPhase_msgs o k vs 0 true m hm).1)
  cases hw : o.workerRes k with
  | error e =>
    rw [iterEvents_workerErr o vs k hw]
    simp [msgIter]
  | ok out =>
    rw [iterEvents_ok o vs k hw]
    by_cases hvp : (verifierPhase o k 0 true vs).2 = true
    · simp [hvp, List.filterMap_append, hvpm, msgIter]
    · cases hu : o.uncheckRes k with
      | error e => simp [hvp, hu, List.filterMap_append, hvpm, msgIter]
      | ok u => simp [hvp, hu, List.filterMap_append, hvpm, msgIter]

theorem iterEvents_ne_nil (o : Oracle) (vs : List Verifier) (k : Nat) :
    (iterEvents o vs k).1 ≠ [] := by
  cases hw : o.workerRes k with
  | error e =>
    rw [iterEvents_workerErr o vs k hw]
    simp
  | ok out =>
    rw [iterEvents_ok o vs k hw]
    by_cases hvp : (verifierPhase o k 0 true vs).2 = true
    · simp [hvp]
    · cases hu : o.uncheckRes k with
      | error e => simp [hvp, hu]
      | ok u => simp [hvp, hu]

theorem iterEvents_cont_no_done (o : Oracle) (vs : List Verifier) (k : Nat)
    (h : (iterEvents o vs k).2 = false) :
    RunnerMessage.Done ∉ (iterEvents o vs k).1 := by
  cases hw : o.workerRes k with
  | error e =>
    rw [iterEvents_workerErr o vs k hw] at h
    cases h
  | ok out =>
    rw [iterEvents_ok o vs k hw] at h ⊢
    by_cases hvp : (verifierPhase o k 0 true vs).2 = true
    · simp [hvp] at h
    · cases hu : o.uncheckRes k with
      | error e => simp [hvp, hu] at h
      | ok u =>
        simp only [hvp, hu, if_false, Bool.false_eq_true]
        intro hmem
        simp only [List.append_assoc, List.mem_append, List.mem_cons,
          List.not_mem_nil, or_false] at hmem
        rcases hmem with (h1 | h1 | h1 | h1 | h1) | h1 | h1 | h1 <;>
          first
          | cases h1
          | exact (verifierPhase_msgs o k vs 0 true RunnerMessage.Done h1).2 rfl

theorem iterEvents_done (o : Oracle) (vs : List Verifier) (k : Nat)
    (h : RunnerMessage.Done ∈ (iterEvents o vs k).1) :
    (iterEvents o vs k).2 = true ∧
      ∃ pre, (iterEvents o vs k).1 = pre ++ [RunnerMessage.Done] ∧
        RunnerMessage.Done ∉ pre := by
  cases hw : o.workerRes k with
  | error e =>
    rw [iterEvents_workerErr o vs k hw] at h
    simp at h
  | ok out =>
    rw [iterEvents_ok o vs k hw] at h ⊢
    by_cases hvp : (verifierPhase o k 0 true vs).2 = true
    · simp only [hvp, if_true]
      refine ⟨by trivial, [RunnerMessage.IterationStart k,
        RunnerMessage.Log ("--- Iteration " ++ toString k ++ " ---"),
        RunnerMessage.Log "Starting worker...", RunnerMessage.Log "Worker complete.",
        RunnerMessage.FileUpdated] ++ (verifierPhase o k 0 true vs).1 ++
          [RunnerMessage.FileUpdated], ?_, ?_⟩
      · simp
      · intro hmem
        simp only [List.append_assoc, List.mem_append, List.mem_cons,
          List.not_mem_nil, or_false] at hmem
        rcases hmem with (h1 | h1 | h1 | h1 | h1) | h1 | h1 <;>
          first
          | cases h1
          | exact (verifierPhase_msgs o k vs 0 true RunnerMessage.Done h1).2 rfl
    · cases hu : o.uncheckRes k with
      | error e =>
        simp only [hvp, hu, if_false, Bool.false_eq_true] at h
        simp only [List.append_assoc, List.mem_append, List.mem_cons,
          List.not_mem_nil, or_false] at h
        rcases h with (h1 | h1 | h1 | h1 | h1) | h1 | h1 | h1 <;>
          first
          | cases h1
          | exact absurd rfl
              ((verifierPhase_msgs o k vs 0 true RunnerMessage.Done h1).2)
      | ok u =>
        simp only [hvp, hu, if_false, Bool.false_eq_true] at h
        simp only [List.append_assoc, List.mem_append, List.mem_cons,
          List.not_mem_nil, or_false] at h
        rcases h with (h1 | h1 | h1 | h1 | h1) | h1 | h1 | h1 <;>
          first
          | cases h1
          | exact absurd rfl
              ((verifierPhase_msgs o k vs 0 true RunnerMessage.Done h1).2)

theorem loopGo_ne_nil (o : Oracle) (vs : List Verifier) (m : Nat) :
    ∀ js, loopGo o vs m js ≠ [] := by
  intro js
  cases js with
  | nil => simp [loopGo]
  | cons j rest =>
    cases hj : (iterEvents o vs j).2 with
    | true =>
      rw [loopGo_halt o vs m j rest hj]
      exact iterEvents_ne_nil o vs j
    | false =>
      rw [loopGo_cont o vs m j rest hj]
      intro hh
      exact iterEvents_ne_nil o vs j (List.append_eq_nil.1 hh).1

theorem loopGo_all_cont (o : Oracle) (vs : List Verifier) (m : Nat) :
    ∀ js, (∀ j ∈ js, (iterEvents o vs j).2 = false) →
      (loopGo o vs m js).filterMap msgIter = js ∧
      (loopGo o vs m js).getLast? = some (RunnerMessage.Error
        ("Reached maximum iterations (" ++ toString m ++ "). Stopping.")) := by
  intro js
  induction js with
  | nil =>
    intro _
    exact ⟨by simp [loopGo, msgIter], by simp [loopGo]⟩
  | cons j rest ih =>
    intro h
    rw [loopGo_cont o vs m j rest (h j (List.mem_cons_self j rest))]
    obtain ⟨ih1, ih2⟩ := ih (fun x hx => h x (List.mem_cons_of_mem j hx))
    constructor
    · rw [List.filterMap_append, iterEvents_filterMap, ih1]
      rfl
    · rw [List.getLast?_append_of_ne_nil _ (loopGo_ne_nil o vs m rest), ih2]

/-! ### Claim C6 -/

/-- Claim C6: if no iteration ends with all verifiers passed and no fatal
error occurs (worker calls and `uncheck_all` always succeed), the loop
emits exactly ten `IterationStart` events with values 1..10 in order and
ends with the max-iterations error as its final event. -/
theorem c6_iteration_cap (o : Oracle) (p : String) (vs : List Verifier)
    (hw : ∀ k, ∃ out, o.workerRes k = Except.ok out)
    (hu : ∀ k, o.uncheckRes k = Except.ok ())
    (hnp : ∀ k, (verifierPhase o k 0 true vs).2 = false) :
    (run_loop o p vs).filterMap msgIter = [1, 2, 3, 4, 5, 6, 7, 8, 9, 10] ∧
    (run_loop o p vs).getLast? =
      some (RunnerMessage.Error "Reached maximum iterations (10). Stopping.") := by
  have hcont : ∀ j, (iterEvents o vs j).2 = false := by
    intro j
    obtain ⟨out, hj⟩ := hw j
    rw [iterEvents_ok o vs j hj]
    simp [hnp j, hu j]
  obtain ⟨h1, h2⟩ := loopGo_all_cont o vs 10 (List.range' 1 10) (fun j _ => hcont j)
  constructor
  · rw [run_loop, h1]
    decide
  · rw [run_loop, h2]
    decide

/-- Oracle for the C6 witness: all CLI calls succeed, the file always reads
back empty (so every verifier's checkbox is "not found" and fails). -/
def oC6 : Oracle :=
  ⟨fun _ => Except.ok "", fun _ _ => Except.ok "", fun _ _ => Except.ok [],
    fun _ => Except.ok ()⟩

/-- Witness for C6 at a concrete oracle under which no verifier ever
passes. -/
theorem c6_iteration_cap_witness :
    (run_loop oC6 "p" [⟨"a", "chk", true⟩]).filterMap msgIter =
      [1, 2, 3, 4, 5, 6, 7, 8, 9, 10] ∧
    (run_loop oC6 "p" [⟨"a", "chk", true⟩]).getLast? =
      some (RunnerMessage.Error "Reached maximum iterations (10). Stopping.") :=
  c6_iteration_cap oC6 "p" [⟨"a", "chk", true⟩] (fun _ => ⟨"", rfl⟩)
    (fun _ => rfl) (fun _ => rfl)

/-! ### Claim C5 -/

/-- Claim C5: if the worker call of a reached iteration `k` fails, the loop
emits that iteration's head events followed by `Error ("Worker failed: e")`
and terminates immediately: the run is exactly the previous iterations'
events plus those four, so no `VerifierStatusUpdate` is emitted for
iteration `k`, no `FileUpdated` follows the failed call, and no further
`IterationStart` occurs. -/
theorem c5_worker_fatal (o : Oracle) (p : String) (vs : List Verifier) (k : Nat)
    (e : String) (hk1 : 1 ≤ k) (hk2 : k ≤ 10)
    (hprev : ∀ j, 1 ≤ j → j < k → (iterEvents o vs j).2 = false)
    (hw : o.workerRes k = Except.error e) :
    run_loop o p vs = contEvents o vs (List.range' 1 (k - 1)) ++ (iterEvents o vs k).1 ∧
    (iterEvents o vs k).1 = [RunnerMessage.IterationStart k,
      RunnerMessage.Log ("--- Iteration " ++ toString k ++ " ---"),
      RunnerMessage.Log "Starting worker...",
      RunnerMessage.Error ("Worker failed: " ++ e)] ∧
    (∀ i st, RunnerMessage.VerifierStatusUpdate i st ∉ (iterEvents o vs k).1) ∧
    RunnerMessage.FileUpdated ∉ (iterEvents o vs k).1 ∧
    RunnerMessage.Done ∉ (iterEvents o vs k).1 ∧
    (∀ n, RunnerMessage.IterationStart n ∈ (iterEvents o vs k).1 → n = k) := by
  have hIter := iterEvents_workerErr o vs k hw
  have h4 : (iterEvents o vs k).1 = [RunnerMessage.IterationStart k,
      RunnerMessage.Log ("--- Iteration " ++ toString k ++ " ---"),
      RunnerMessage.Log "Starting worker...",
      RunnerMessage.Error ("Worker failed: " ++ e)] := by rw [hIter]
  refine ⟨?_, h4, ?_, ?_, ?_, ?_⟩
  · have hsplit : List.range' 1 10 =
        List.range' 1 (k - 1) ++ k :: List.range' (k + 1) (10 - k) := by
      interval_cases k <;> rfl
    rw [run_loop, hsplit, loopGo_cont_append o vs 10 _ _ ?hc,
      loopGo_halt o vs 10 k _ (by rw [hIter])]
    case hc =>
      intro j hj
      rw [List.mem_range'_1] at hj
      exact hprev j hj.1 (by omega)
  · intro i st
    rw [h4]
    simp
  · rw [h4]
    simp
  · rw [h4]
    simp
  · intro n hn
    rw [h4] at hn
    simp at hn
    exact hn

/-- Oracle for the C5 witness: the worker fails in iteration 1. -/
def oC5 : Oracle :=
  ⟨fun _ => Except.error "boom", fun _ _ => Except.ok "", fun _ _ => Except.ok [],
    fun _ => Except.ok ()⟩

/-- Witness for C5 at a concrete oracle whose iteration-1 worker call
fails. -/
theorem c5_worker_fatal_witness :
    run_loop oC5 "p" [] =
      contEvents oC5 [] (List.range' 1 (1 - 1)) ++ (iterEvents oC5 [] 1).1 :=
  (c5_worker_fatal oC5 "p" [] 1 "boom" (by decide) (by decide)
    (fun j h1 h2 => absurd (Nat.lt_of_le_of_lt h1 h2) (Nat.lt_irrefl 1)) rfl).1

/-! ### Claim C8 -/

theorem list_split_at_mem {α : Type} (d : α) :
    ∀ (a : List α) {b l₁ l₂ : List α}, d ∉ a → a ++ b = l₁ ++ d :: l₂ →
      ∃ l₁', l₁ = a ++ l₁' ∧ b = l₁' ++ d :: l₂ := by
  intro a
  induction a with
  | nil => intro b l₁ l₂ _ h; exact ⟨l₁, rfl, h⟩
  | cons x a ih =>
    intro b l₁ l₂ hd h
    rw [List.mem_cons, not_or] at hd
    cases l₁ with
    | nil =>
      rw [List.nil_append, List.cons_append] at h
      injection h with h1 _
      exact absurd h1.symm hd.1
    | cons y l₁' =>
      rw [List.cons_append, List.cons_append] at h
      injection h with h1 h2
      obtain ⟨l₁'', hl, hb⟩ := ih hd.2 h2
      exact ⟨l₁'', by rw [hl, ← h1, List.cons_append], hb⟩

theorem list_concat_unique {α : Type} (d : α) :
    ∀ (pre : List α) {l₁ l₂ : List α}, d ∉ pre → pre ++ [d] = l₁ ++ d :: l₂ →
      l₁ = pre ∧ l₂ = [] := by
  intro pre
  induction pre with
  | nil =>
    intro l₁ l₂ _ h
    rw [List.nil_append] at h
    cases l₁ with
    | nil =>
      injection h with _ h2
      exact ⟨rfl, h2.symm⟩
    | cons y l₁' =>
      rw [List.cons_append] at h
      injection h with _ h2
      exact absurd h2.symm (by simp)
  | cons x pre ih =>
    intro l₁ l₂ hd h
    rw [List.mem_cons, not_or] at hd
    cases l₁ with
    | nil =>
      rw [List.nil_append, List.cons_append] at h
      injection h with h1 _
      exact absurd h1.symm hd.1
    | cons y l₁' =>
      rw [List.cons_append, List.cons_append] at h
      injection h with h1 h2
      obtain ⟨hl, hnil⟩ := ih hd.2 h2
      exact ⟨by rw [hl, h1], hnil⟩

theorem loopGo_done (o : Oracle) (vs : List Verifier) (m : Nat) :
    ∀ js (l₁ l₂ : List RunnerMessage),
      loopGo o vs m js = l₁ ++ RunnerMessage.Done :: l₂ →
      RunnerMessage.Done ∉ l₁ ∧ l₂ = [] := by
  intro js
  induction js with
  | nil =>
    intro l₁ l₂ h
    exfalso
    have hmem : RunnerMessage.Done ∈ l₁ ++ RunnerMessage.Done :: l₂ :=
      List.mem_append_right l₁ (List.mem_cons_self _ _)
    rw [← h] at hmem
    simp [loopGo] at hmem
  | cons j rest ih =>
    intro l₁ l₂ h
    cases hj : (iterEvents o vs j).2 with
    | true =>
      rw [loopGo_halt o vs m j rest hj] at h
      have hmem : RunnerMessage.Done ∈ (iterEvents o vs j).1 := by
        rw [h]
        exact List.mem_append_right l₁ (List.mem_cons_self _ _)
      obtain ⟨_, pre, hpre, hnd⟩ := iterEvents_done o vs j hmem
      rw [hpre] at h
      obtain ⟨hl, hnil⟩ := list_concat_unique RunnerMessage.Done pre hnd h
      exact ⟨by rw [hl]; exact hnd, hnil⟩
    | false =>
      rw [loopGo_cont o vs m j rest hj] at h
      obtain ⟨l₁', hl, hrest⟩ :=
        list_split_at_mem RunnerMessage.Done (iterEvents o vs j).1
          (iterEvents_cont_no_done o vs j hj) h
      obtain ⟨hnd', hnil⟩ := ih l₁' l₂ hrest
      refine ⟨?_, hnil⟩
      rw [hl]
      intro hmem
      rcases List.mem_append.1 hmem with hm | hm
      · exact iterEvents_cont_no_done o vs j hj hm
      · exact hnd' hm

/-- Claim C8: over any run at most one `Done` is emitted, and when a `Done`
is emitted it is the final event of the run — nothing (in particular no
`IterationStart`, `VerifierStatusUpdate`, `FileUpdated`, or `Error`)
follows it. -/
theorem c8_at_most_one_done (o : Oracle) (p : String) (vs : List Verifier)
    (l₁ l₂ : List RunnerMessage)
    (h : run_loop o p vs = l₁ ++ RunnerMessage.Done :: l₂) :
    RunnerMessage.Done ∉ l₁ ∧ l₂ = [] := by
  rw [run_loop] at h
  exact loopGo_done o vs 10 (List.range' 1 10) l₁ l₂ h

/-- Oracle for the C8 witness: every external call succeeds. -/
def oC8 : Oracle :=
  ⟨fun _ => Except.ok "", fun _ _ => Except.ok "", fun _ _ => Except.ok [],
    fun _ => Except.ok ()⟩

/-- Witness for C8 at a concrete single-iteration successful run. -/
theorem c8_at_most_one_done_witness :
    RunnerMessage.Done ∉ [RunnerMessage.IterationStart 1,
      RunnerMessage.Log "--- Iteration 1 ---", RunnerMessage.Log "Starting worker...",
      RunnerMessage.Log "Worker complete.", RunnerMessage.FileUpdated,
      RunnerMessage.FileUpdated] ∧ ([] : List RunnerMessage) = [] :=
  c8_at_most_one_done oC8 "p" []
    [RunnerMessage.IterationStart 1, RunnerMessage.Log "--- Iteration 1 ---",
     RunnerMessage.Log "Starting worker...", RunnerMessage.Log "Worker complete.",
     RunnerMessage.FileUpdated, RunnerMessage.FileUpdated] [] (by decide)

/-! ### Claim C1 -/

/-- The single verifier used by the C1 oracle runs. -/
def vC1 : Verifier := ⟨"a", "check", true⟩

/-- Oracle for C1: every CLI call succeeds, every `parse_checkboxes` read
fails with the I/O error "io failure", every `uncheck_all` succeeds. -/
def oC1 : Oracle :=
  ⟨fun _ => Except.ok "", fun _ _ => Except.ok "",
    fun _ _ => Except.error "io failure", fun _ => Except.ok ()⟩

/-- Claim C1 counterexample: in a run where the verifier CLI call succeeds
and `parse_checkboxes` then fails, the loop never emits
`VerifierStatusUpdate (i, Failed)` and never logs `"a: FAILED"` — it emits
only the `Error ("Failed to parse checkboxes: ...")` event, contrary to the
claim. -/
theorem c1_counterexample :
    RunnerMessage.VerifierStatusUpdate 0 VerifierStatus.Failed ∉
      run_loop oC1 "p" [vC1] ∧
    RunnerMessage.Log "a: FAILED" ∉ run_loop oC1 "p" [vC1] ∧
    RunnerMessage.Error "Failed to parse checkboxes: io failure" ∈
      run_loop oC1 "p" [vC1] := by
  decide

/-- Claim C1 (amended): when `parse_checkboxes` fails after a successful
verifier CLI call, the loop emits (after the `Running` update, log line and
`FileUpdated`) only `Error ("Failed to parse checkboxes: <e>")` — no
`VerifierStatusUpdate (i, Failed)` and no `"<name>: FAILED"` log — sets
`all_passed` to `false`, and continues with the next verifier. -/
theorem c1_parse_error_amended (o : Oracle) (iter i : Nat) (v : Verifier)
    (vs : List Verifier) (allp : Bool) (out e : String)
    (hok : o.verifierRes iter i = Except.ok out)
    (herr : o.readAt iter i = Except.error e) :
    verifierPhase o iter i allp (v :: vs) =
      ([RunnerMessage.VerifierStatusUpdate i VerifierStatus.Running,
        RunnerMessage.Log ("Running verifier: " ++ v.name ++ "..."),
        RunnerMessage.FileUpdated,
        RunnerMessage.Error ("Failed to parse checkboxes: " ++ e)] ++
        (verifierPhase o iter (i + 1) false vs).1,
        (verifierPhase o iter (i + 1) false vs).2) ∧
    RunnerMessage.VerifierStatusUpdate i VerifierStatus.Failed ∉
      (verifierStep o iter i v).1 ∧
    RunnerMessage.Log (v.name ++ ": FAILED") ∉ (verifierStep o iter i v).1 := by
  have hstep := verifierStep_parse_error o iter i v hok herr
  refine ⟨?_, ?_, ?_⟩
  · rw [verifierPhase_cons, hstep]
    simp
  · rw [hstep]
    simp
  · rw [hstep]
    intro hmem
    simp only [List.mem_cons, List.not_mem_nil, or_false] at hmem
    rcases hmem with h1 | h1 | h1 | h1
    · cases h1
    · injection h1 with h1
      have h2 := congrArg (fun s : String => s.data.getLast?) h1
      simp only [String.data_append] at h2
      rw [List.getLast?_append_of_ne_nil _ (show (": FAILED").data ≠ [] by decide),
        List.getLast?_append_of_ne_nil _ (show ("...").data ≠ [] by decide)] at h2
      cases h2
    · cases h1
    · cases h1

/-- Witness for the amended C1 at the concrete oracle `oC1`. -/
theorem c1_parse_error_amended_witness :
    verifierPhase oC1 1 0 true [vC1] =
      ([RunnerMessage.VerifierStatusUpdate 0 VerifierStatus.Running,
        RunnerMessage.Log "Running verifier: a...", RunnerMessage.FileUpdated,
        RunnerMessage.Error "Failed to parse checkboxes: io failure"] ++
        (verifierPhase oC1 1 1 false []).1,
        (verifierPhase oC1 1 1 false []).2) :=
  (c1_parse_error_amended oC1 1 0 vC1 [] true "" "io failure" rfl rfl).1

/-! ### Claim C2 -/

/-- The verifier list for the C2 run: the first verifier is disabled. -/
def vsC2 : List Verifier := [⟨"a", "pa", false⟩, ⟨"b", "pb", true⟩]

/-- Oracle for C2: all CLI calls succeed, the file always reads back with
both checkboxes checked. -/
def oC2 : Oracle :=
  ⟨fun _ => Except.ok "", fun _ _ => Except.ok "",
    fun _ _ => Except.ok "[x] a\n[x] b\n".data, fun _ => Except.ok ()⟩

/-- Claim C2 is violated by the code: `run_app` (main.rs) passes the
*unfiltered* verifier list to both `FileManager::create` and `run_loop`.
With the disabled verifier "a" first: its name gets a checkbox line in the
scratch file, the loop invokes the CLI for it and emits verifier events at
index 0 — while the UI's status rows (`start_running`) are filtered to the
enabled ones, so they contain only "b" (the loop's index 0 refers to "a"
but row 0 of the UI is "b", and index 1 has no row at all). -/
theorem c2_disabled_consumed :
    run_app_verifier_names vsC2 = ["a", "b"] ∧
    vsC2.map (fun v => v.enabled) = [false, true] ∧
    parse_checkboxes (create_contents (run_app_verifier_names vsC2) "task") =
      [("a".data, false), ("b".data, false)] ∧
    RunnerMessage.Log "Running verifier: a..." ∈
      run_loop oC2 "task" (run_app_runner_verifiers vsC2) ∧
    RunnerMessage.VerifierStatusUpdate 0 VerifierStatus.Running ∈
      run_loop oC2 "task" (run_app_runner_verifiers vsC2) ∧
    start_running_statuses vsC2 = [("b", VerifierStatus.Pending)] := by
  decide

/-! ## The CLI invoker (src/runner.rs::run_claude) -/

/-- Model of `std::process::Output` as consumed by `run_claude`:
`success` is `status.success()`, `statusDisplay` the `Display` rendering of
the exit status interpolated into the error message, and `stdout`/`stderr`
the raw captured bytes (as `Nat`s below 256). -/
structure ChildOutput where
  success : Bool
  statusDisplay : String
  stdout : List Nat
  stderr : List Nat

/-- One step of strict UTF-8 decoding, as performed by Rust's
`String::from_utf8_lossy`: returns `(some codepoint, consumed)` for a valid
sequence, or `(none, errorLen)` where `errorLen` is the length of the
maximal subpart of an ill-formed sequence (the number of bytes replaced by
one U+FFFD). -/
def utf8Decode1 : List Nat → Option Nat × Nat
  | [] => (none, 1)
  | b1 :: rest =>
    if b1 < 0x80 then (some b1, 1)
    else if 0xC2 ≤ b1 ∧ b1 ≤ 0xDF then
      match rest with
      | b2 :: _ =>
        if 0x80 ≤ b2 ∧ b2 ≤ 0xBF then (some ((b1 - 0xC0) * 64 + (b2 - 0x80)), 2)
        else (none, 1)
      | [] => (none, 1)
    else if 0xE0 ≤ b1 ∧ b1 ≤ 0xEF then
      match rest with
      | b2 :: rest2 =>
        if (b1 = 0xE0 ∧ 0xA0 ≤ b2 ∧ b2 ≤ 0xBF) ∨
            (0xE1 ≤ b1 ∧ b1 ≤ 0xEC ∧ 0x80 ≤ b2 ∧ b2 ≤ 0xBF) ∨
            (b1 = 0xED ∧ 0x80 ≤ b2 ∧ b2 ≤ 0x9F) ∨
            (0xEE ≤ b1 ∧ b1 ≤ 0xEF ∧ 0x80 ≤ b2 ∧ b2 ≤ 0xBF) then
          match rest2 with
          | b3 :: _ =>
            if 0x80 ≤ b3 ∧ b3 ≤ 0xBF then
              (some ((b1 - 0xE0) * 4096 + (b2 - 0x80) * 64 + (b3 - 0x80)), 3)
            else (none, 2)
          | [] => (none, 2)
        else (none, 1)
      | [] => (none, 1)
    else if 0xF0 ≤ b1 ∧ b1 ≤ 0xF4 then
      match rest with
      | b2 :: rest2 =>
        if (b1 = 0xF0 ∧ 0x90 ≤ b2 ∧ b2 ≤ 0xBF) ∨
            (0xF1 ≤ b1 ∧ b1 ≤ 0xF3 ∧ 0x80 ≤ b2 ∧ b2 ≤ 0xBF) ∨
            (b1 = 0xF4 ∧ 0x80 ≤ b2 ∧ b2 ≤ 0x8F) then
          match rest2 with
          | b3 :: rest3 =>
            if 0x80 ≤ b3 ∧ b3 ≤ 0xBF then
              match rest3 with
              | b4 :: _ =>
                if 0x80 ≤ b4 ∧ b4 ≤ 0xBF then
                  (some ((b1 - 0xF0) * 262144 + (b2 - 0x80) * 4096 +
                    (b3 - 0x80) * 64 + (b4 - 0x80)), 4)
                else (none, 3)
              | [] => (none, 3)
            else (none, 2)
          | [] => (none, 2)
        else (none, 1)
      | [] => (none, 1)
    else (none, 1)

theorem utf8Decode1_pos (l : List Nat) : 1 ≤ (utf8Decode1 l).2 := by
  cases l with
  | nil => exact Nat.le_refl 1
  | cons b rest =>
    simp only [utf8Decode1]
    repeat' split
    all_goals simp

/-- Model of Rust `String::from_utf8_lossy` on a byte sequence: decode
valid UTF-8 sequences, replace each maximal invalid subpart by U+FFFD;
total — it never fails on non-UTF-8 input. -/
def utf8Lossy : List Nat → List Char
  | [] => []
  | b :: rest =>
    let r := utf8Decode1 (b :: rest)
    (match r.1 with
      | some cp => Char.ofNat cp
      | none => Char.ofNat 0xFFFD) :: utf8Lossy (rest.drop (r.2 - 1))
termination_by l => l.length
decreasing_by
  simp only [List.length_drop, List.length_cons]
  omega

/-- Standard UTF-8 encoding of one character (used only to state that the
decoder is left-inverse to UTF-8 encoding on valid input). -/
def utf8EncodeChar (c : Char) : List Nat :=
  let v := c.toNat
  if v < 0x80 then [v]
  else if v < 0x800 then [0xC0 + v / 64, 0x80 + v % 64]
  else if v < 0x10000 then
    [0xE0 + v / 4096, 0x80 + (v / 64) % 64, 0x80 + v % 64]
  else
    [0xF0 + v / 262144, 0x80 + (v / 4096) % 64, 0x80 + (v / 64) % 64, 0x80 + v % 64]

/-- Standard UTF-8 encoding of a character sequence. -/
def utf8Encode (cs : List Char) : List Nat :=
  (cs.map utf8EncodeChar).flatten

theorem utf8Decode1_ascii {v : Nat} (hv : v < 0x80) (tail : List Nat) :
    utf8Decode1 (v :: tail) = (some v, 1) := by
  simp only [utf8Decode1]
  rw [if_pos hv]

theorem utf8Decode1_two {v : Nat} (h1 : 0x80 ≤ v) (h2 : v < 0x800) (tail : List Nat) :
    utf8Decode1 ((0xC0 + v / 64) :: (0x80 + v % 64) :: tail) = (some v, 2) := by
  simp only [utf8Decode1]
  rw [if_neg (by omega), if_pos (by omega), if_pos (by omega)]
  have hval : (0xC0 + v / 64 - 0xC0) * 64 + (0x80 + v % 64 - 0x80) = v := by omega
  rw [hval]

theorem utf8Decode1_three {v : Nat} (h1 : 0x800 ≤ v) (h2 : v < 0x10000)
    (hs : v < 0xD800 ∨ 0xDFFF < v) (tail : List Nat) :
    utf8Decode1 ((0xE0 + v / 4096) :: (0x80 + v / 64 % 64) :: (0x80 + v % 64) :: tail) =
      (some v, 3) := by
  simp only [utf8Decode1]
  rw [if_neg (by omega), if_neg (by omega), if_pos (by omega), if_pos (by omega),
    if_pos (by omega)]
  have hval : (0xE0 + v / 4096 - 0xE0) * 4096 + (0x80 + v / 64 % 64 - 0x80) * 64 +
      (0x80 + v % 64 - 0x80) = v := by omega
  rw [hval]

theorem utf8Decode1_four {v : Nat} (h1 : 0x10000 ≤ v) (h2 : v < 0x110000)
    (tail : List Nat) :
    utf8Decode1 ((0xF0 + v / 262144) :: (0x80 + v / 4096 % 64) ::
      (0x80 + v / 64 % 64) :: (0x80 + v % 64) :: tail) = (some v, 4) := by
  simp only [utf8Decode1]
  rw [if_neg (by omega), if_neg (by omega), if_neg (by omega), if_pos (by omega),
    if_pos (by omega), if_pos (by omega), if_pos (by omega)]
  have hval : (0xF0 + v / 262144 - 0xF0) * 262144 + (0x80 + v / 4096 % 64 - 0x80) * 4096 +
      (0x80 + v / 64 % 64 - 0x80) * 64 + (0x80 + v % 64 - 0x80) = v := by omega
  rw [hval]

theorem utf8Lossy_encodeChar (c : Char) (tail : List Nat) :
    utf8Lossy (utf8EncodeChar c ++ tail) = c :: utf8Lossy tail := by
  have hv : c.toNat < 0xD800 ∨ (0xDFFF < c.toNat ∧ c.toNat < 0x110000) := c.valid
  rw [utf8EncodeChar]
  by_cases h1 : c.toNat < 0x80
  · rw [if_pos h1]
    rw [show [c.toNat] ++ tail = c.toNat :: tail from rfl]
    simp only [utf8Lossy]
    rw [utf8Decode1_ascii h1 tail]
    simp [Char.ofNat_toNat]
  · rw [if_neg h1]
    by_cases h2 : c.toNat < 0x800
    · rw [if_pos h2]
      rw [List.cons_append, List.cons_append, List.nil_append]
      simp only [utf8Lossy]
      rw [utf8Decode1_two (by omega) h2 tail]
      simp [Char.ofNat_toNat]
    · rw [if_neg h2]
      by_cases h3 : c.toNat < 0x10000
      · rw [if_pos h3]
        rw [List.cons_append, List.cons_append, List.cons_append, List.nil_append]
        simp only [utf8Lossy]
        rw [utf8Decode1_three (by omega) h3
          (by rcases hv with h | ⟨h, _⟩; exact Or.inl h; exact Or.inr h) tail]
        simp [Char.ofNat_toNat]
      · rw [if_neg h3]
        rw [List.cons_append, List.cons_append, List.cons_append, List.cons_append,
          List.nil_append]
        simp only [utf8Lossy]
        rw [utf8Decode1_four (by omega)
          (by rcases hv with h | ⟨_, h⟩; omega; exact h) tail]
        simp [Char.ofNat_toNat]

theorem utf8Lossy_nil : utf8Lossy [] = [] := by
  simp only [utf8Lossy]

theorem utf8Lossy_encode (cs : List Char) : utf8Lossy (utf8Encode cs) = cs := by
  induction cs with
  | nil =>
    rw [utf8Encode]
    simp only [List.map_nil, List.flatten_nil]
    exact utf8Lossy_nil
  | cons c cs ih =>
    rw [utf8Encode, List.map_cons, List.flatten_cons, ← utf8Encode,
      utf8Lossy_encodeChar, ih]

/-- Model of `run_claude` (`runner.rs` lines 21-46).  The temp-file write
of the prompt and the spawned child are oracles: `writeRes` is the outcome
of `fs::write` (its error already formatted), `spawnRes` the outcome of
spawning and awaiting the child.  On success of both, the result follows
the child's exit status. -/
def run_claude (writeRes : Except String Unit)
    (spawnRes : Except String ChildOutput) : Except String String :=
  match writeRes with
  | Except.error e => Except.error ("Failed to write prompt file: " ++ e)
  | Except.ok _ =>
    match spawnRes with
    | Except.error e => Except.error ("Failed to spawn claude: " ++ e)
    | Except.ok r =>
      if r.success then Except.ok (String.mk (utf8Lossy r.stdout))
      else Except.error ("claude exited with " ++ r.statusDisplay ++ ": stdout=" ++
        String.mk (utf8Lossy r.stdout) ++ ", stderr=" ++ String.mk (utf8Lossy r.stderr))

/-! ### Claim C7 -/

/-- Claim C7: `run_claude` returns `Ok` with the child's stdout decoded as
UTF-8 (lossily — the decoder is total, inverts UTF-8 encoding on valid
input, and replaces invalid bytes by U+FFFD) iff the temp-file write and
the spawn succeed and the exit status is success; on non-zero exit the
error message carries the exit status, the decoded stdout and the decoded
stderr; on spawn or temp-file failure it returns the corresponding
formatted error. -/
theorem c7_run_claude (w : Except String Unit) (sp : Except String ChildOutput) :
    ((∃ s, run_claude w sp = Except.ok s) ↔
      (w = Except.ok () ∧ ∃ r, sp = Except.ok r ∧ r.success = true)) ∧
    (∀ r, w = Except.ok () → sp = Except.ok r → r.success = true →
      run_claude w sp = Except.ok (String.mk (utf8Lossy r.stdout))) ∧
    (∀ r, w = Except.ok () → sp = Except.ok r → r.success = false →
      ∃ msg, run_claude w sp = Except.error msg ∧
        (∃ a b, msg.data = a ++ r.statusDisplay.data ++ b) ∧
        (∃ a b, msg.data = a ++ utf8Lossy r.stdout ++ b) ∧
        (∃ a b, msg.data = a ++ utf8Lossy r.stderr ++ b)) ∧
    (∀ e, w = Except.error e →
      run_claude w sp = Except.error ("Failed to write prompt file: " ++ e)) ∧
    (∀ e, w = Except.ok () → sp = Except.error e →
      run_claude w sp = Except.error ("Failed to spawn claude: " ++ e)) ∧
    (∀ cs, utf8Lossy (utf8Encode cs) = cs) ∧
    utf8Lossy [0xFF] = [Char.ofNat 0xFFFD] ∧
    utf8Lossy [0x61, 0xC3, 0x28, 0x62] =
      ['a', Char.ofNat 0xFFFD, Char.ofNat 0x28, 'b'] := by
  refine ⟨?_, ?_, ?_, ?_, ?_, utf8Lossy_encode, ?_, ?_⟩
  · constructor
    · rintro ⟨s, hs⟩
      match w with
      | Except.error e => rw [run_claude] at hs; cases hs
      | Except.ok u =>
        match sp with
        | Except.error e => rw [run_claude] at hs; cases hs
        | Except.ok r =>
          refine ⟨rfl, r, rfl, ?_⟩
          by_cases hr : r.success = true
          · exact hr
          · rw [run_claude, if_neg hr] at hs
            cases hs
    · rintro ⟨rfl, r, rfl, hr⟩
      exact ⟨String.mk (utf8Lossy r.stdout), by rw [run_claude, if_pos hr]⟩
  · rintro r rfl rfl hr
    rw [run_claude, if_pos hr]
  · rintro r rfl rfl hr
    refine ⟨_, by rw [run_claude, if_neg (by rw [hr]; exact Bool.false_ne_true)], ?_, ?_, ?_⟩
    · refine ⟨"claude exited with ".data, (": stdout=" ++
        String.mk (utf8Lossy r.stdout) ++ ", stderr=" ++
        String.mk (utf8Lossy r.stderr)).data, ?_⟩
      simp [String.data_append]
    · refine ⟨("claude exited with " ++ r.statusDisplay ++ ": stdout=").data,
        (", stderr=" ++ String.mk (utf8Lossy r.stderr)).data, ?_⟩
      simp [String.data_append]
    · refine ⟨("claude exited with " ++ r.statusDisplay ++ ": stdout=" ++
        String.mk (utf8Lossy r.stdout) ++ ", stderr=").data, [], ?_⟩
      simp [String.data_append]
  · rintro e rfl
    rw [run_claude]
  · rintro e rfl rfl
    rw [run_claude]
  · simp only [utf8Lossy]
    rw [show utf8Decode1 [0xFF] = (none, 1) from by decide]
    simp [utf8Lossy_nil]
  · simp only [utf8Lossy]
    rw [show utf8Decode1 [0x61, 0xC3, 0x28, 0x62] = (some 0x61, 1) from by decide]
    simp only [show (1 : Nat) - 1 = 0 from rfl, List.drop_zero]
    simp only [utf8Lossy]
    rw [show utf8Decode1 [0xC3, 0x28, 0x62] = (none, 1) from by decide]
    simp only [show (1 : Nat) - 1 = 0 from rfl, List.drop_zero]
    simp only [utf8Lossy]
    rw [show utf8Decode1 [0x28, 0x62] = (some 0x28, 1) from by decide]
    simp only [show (1 : Nat) - 1 = 0 from rfl, List.drop_zero]
    simp only [utf8Lossy]
    rw [show utf8Decode1 [0x62] = (some 0x62, 1) from by decide]
    simp [utf8Lossy_nil]

/-- Witness for C7 at a concrete successful invocation. -/
theorem c7_run_claude_witness :
    run_claude (Except.ok ()) (Except.ok ⟨true, "exit status: 0", [104, 105], []⟩) =
      Except.ok (String.mk (utf8Lossy [104, 105])) :=
  (c7_run_claude (Except.ok ())
    (Except.ok ⟨true, "exit status: 0", [104, 105], []⟩)).2.1
    ⟨true, "exit status: 0", [104, 105], []⟩ rfl rfl rfl

end Verifiers
